import Mathlib

/-!
Verification of the colony-simulation core (job scheduler, agent executor,
item registry, grid pathfinder) of the 2327-roguelikedev project.

The JavaScript source is shallowly embedded: mutable global state (the job
table, the item list, the colonist roster) becomes an explicit `World`
record threaded through the functions; `throw` statements become
`Except.error`; JS objects compared by reference carry explicit numeric ids.
Positions are pairs of integers, as in `mapgen.js`'s `Pos`.
-/

namespace Roguelike

/-- `Pos(x, y)` from mapgen.js: an integer grid position.  `equals` compares
coordinates; `toString()` produces the key `"x:y"`. -/
structure Pos where
  x : Int
  y : Int
deriving DecidableEq, Repr

/-- `tileId` / `Pos.toString()`: the string key `"x:y"` used for Map/Set
membership in the source.  It is injective on positions, so set membership
by key coincides with membership by value. -/
def posKey (p : Pos) : String :=
  toString p.x ++ ":" ++ toString p.y

/-- 4-directional adjacency: the positions differ by one unit in exactly one
coordinate. -/
def adjacent (a b : Pos) : Prop :=
  (a.x - b.x).natAbs + (a.y - b.y).natAbs = 1

instance : DecidablePred fun ab : Pos × Pos => adjacent ab.1 ab.2 :=
  fun _ => by unfold adjacent; infer_instance

instance (a b : Pos) : Decidable (adjacent a b) := by
  unfold adjacent; infer_instance

/-- Manhattan distance, the minimum number of 4-directional steps. -/
def manhattan (a b : Pos) : Nat :=
  (a.x - b.x).natAbs + (a.y - b.y).natAbs

--------------------------------------------------------------------------
-- Pathfinding (breadthFirstSearch, findPath)

/-- `DIRS1` from breadthFirstSearch: west, south, east, north (as (dx,dy)). -/
def DIRS1 : List (Int × Int) := [(-1, 0), (0, 1), (1, 0), (0, -1)]

/-- `DIRS2 = [...DIRS1].reverse()`. -/
def DIRS2 : List (Int × Int) := DIRS1.reverse

/-- The mutable BFS maps `cost_so_far` and `came_from`, as functions.
A JS object keyed by `pos.toString()` with an absent key is `none`.
`came_from[start] = null` is also modelled as `none`: the reconstruction
loop in findPath only reads `came_from` at positions other than `start`,
where `null` cannot occur. -/
structure BfsState where
  cost : Pos → Option Nat
  came : Pos → Option Pos

/-- Try one neighbor direction of a fringe node `pos` at depth `k`:
an unvisited walkable neighbor is inserted into the maps and appended to
the next fringe. -/
def expandDir (walkable : List Pos) (k : Nat) (pos : Pos)
    (acc : BfsState × List Pos) (d : Int × Int) : BfsState × List Pos :=
  let st := acc.1
  let neighbor : Pos := ⟨pos.x + d.1, pos.y + d.2⟩
  if st.cost neighbor = none ∧ neighbor ∈ walkable then
    (⟨fun p => if p = neighbor then some (k + 1) else st.cost p,
      fun p => if p = neighbor then some pos else st.came p⟩,
     acc.2 ++ [neighbor])
  else acc

/-- Expand one fringe node `pos` at depth `k`: try its four neighbors in the
parity-chosen direction order, inserting unvisited walkable ones into the
maps and onto the next fringe. -/
def expandPos (walkable : List Pos) (k : Nat) (pos : Pos)
    (acc : BfsState × List Pos) : BfsState × List Pos :=
  let dirs := if (pos.x + pos.y) % 2 = 0 then DIRS1 else DIRS2
  dirs.foldl (expandDir walkable k pos) acc

/-- Scan the depth-`k` fringe in order.  Returns `.inl st` if the goal was
popped (the early `return {cost_so_far, came_from}` of the source), else
`.inr` with the updated maps and the accumulated depth-`k+1` fringe. -/
def scanFringe (walkable : List Pos) (goal : Pos) (k : Nat) :
    List Pos → BfsState × List Pos → Sum BfsState (BfsState × List Pos)
  | [], acc => .inr acc
  | pos :: rest, acc =>
    if pos = goal then .inl acc.1
    else scanFringe walkable goal k rest (expandPos walkable k pos acc)

/-- The throw message of breadthFirstSearch. -/
def bfsFailMsg (start goal : Pos) : String :=
  "Path not found from " ++ posKey start ++ " to " ++ posKey goal ++
  " - should never happen"

/-- The `for (let k = 0; fringes[k].length > 0; k++)` loop.  `fuel` bounds
the number of iterations to make the function total; every fringe node
permanently occupies an entry of the finite walkable set, so
`walkable.length + 2` iterations always suffice and the `fuel = 0` case is
unreachable from `breadthFirstSearch`. -/
def bfsLoop (walkable : List Pos) (start goal : Pos) :
    Nat → Nat → BfsState → List Pos → Except String BfsState
  | 0, _, _, _ => .error "bfs: out of fuel"
  | _ + 1, _, _, [] => .error (bfsFailMsg start goal)
  | fuel + 1, k, st, fringe@(_ :: _) =>
    match scanFringe walkable goal k fringe (st, []) with
    | .inl stFound => .ok stFound
    | .inr (st', next) => bfsLoop walkable start goal fuel (k + 1) st' next

/-- `breadthFirstSearch(map, start, goal)`: returns the two maps, or throws
(`Except.error`) when the fringe runs empty before the goal is reached.
The source reads only `map.walkable`, passed here directly. -/
def breadthFirstSearch (walkable : List Pos) (start goal : Pos) :
    Except String BfsState :=
  bfsLoop walkable start goal (walkable.length + 2) 0
    ⟨fun p => if p = start then some 0 else none, fun _ => none⟩ [start]

/-- The `while (!current.equals(start))` reconstruction loop of findPath,
accumulating `path.push(current)`.  `fuel` makes the loop total; an absent
`came_from` entry (a TypeError in JS) is an error.  Both are unreachable
for maps produced by a successful breadthFirstSearch. -/
def reconstructLoop (came : Pos → Option Pos) (start : Pos) :
    Nat → Pos → List Pos → Except String (List Pos)
  | 0, _, _ => .error "findPath: reconstruction fuel exhausted"
  | fuel + 1, current, path =>
    if current = start then .ok path
    else
      match came current with
      | none => .error "findPath: came_from undefined"
      | some prev => reconstructLoop came start fuel prev (path ++ [current])

/-- `findPath(map, start, goal)`.  The source's `if (!bfs)` warn-and-return
branch is unreachable: breadthFirstSearch either returns a (truthy) object
or throws, and the throw propagates out of findPath; so the embedding
propagates the error directly. -/
def findPath (walkable : List Pos) (start goal : Pos) :
    Except String (List Pos) :=
  match breadthFirstSearch walkable start goal with
  | .error e => .error e
  | .ok bfs => reconstructLoop bfs.came start (walkable.length + 2) goal []

--------------------------------------------------------------------------
-- Data model

/-- An item's `pos` field: either a ground `Position` or (while carried) a
reference to the carrying colonist, modelled by the colonist's id.
(`itemDestroy` also writes `null` into `pos`, but only on the same line it
removes the item from the registry, so registry items never carry `null`.) -/
inductive ItemPos where
  | ground (p : Pos)
  | held (colonist : Nat)
deriving DecidableEq, Repr

/-- `isItemPosOnGround(pos)`: does the pos field hold an actual `Position`
(a value with an `x` member)?  A colonist reference has no `x` member. -/
def isItemPosOnGround : ItemPos → Bool
  | .ground _ => true
  | .held _ => false

/-- An item: `{id, type, pos}`.  JS ids are the strings `"i1", "i2", …`;
here the numeric part. -/
structure Item where
  id : Nat
  type : String
  pos : ItemPos
deriving DecidableEq, Repr

/-- The two status flags a colonist carries (`{hungry, sleepy}`). -/
inductive StatusFlag where
  | hungry
  | sleepy
deriving DecidableEq, Repr

/-- A colonist: id (numeric part of `"c1"`, …), position, pending path
(reverse order of tiles to visit), the two status flags, and the inventory
slot holding at most one item, modelled by the item's id. -/
structure Colonist where
  id : Nat
  pos : Pos
  path : List Pos
  hungry : Bool
  sleepy : Bool
  inventory : Option Nat
deriving DecidableEq, Repr

/-- `colonist.status[flag]`. -/
def Colonist.status (c : Colonist) : StatusFlag → Bool
  | .hungry => c.hungry
  | .sleepy => c.sleepy

/-- `colonist.status[flag] = b`. -/
def Colonist.setStatus (c : Colonist) : StatusFlag → Bool → Colonist
  | .hungry, b => { c with hungry := b }
  | .sleepy, b => { c with sleepy := b }

/-- `if (furnitureShape.status) this.status[furnitureShape.status] = false`. -/
def Colonist.clearStatus (c : Colonist) : Option StatusFlag → Colonist
  | none => c
  | some st => c.setStatus st false

/-- One input slot of a furniture shape: required item type and the
position offset relative to the furniture. -/
structure InputSlot where
  type : String
  pos : Pos
deriving DecidableEq, Repr

/-- One sprite of a furniture shape (drawn, and part of the footprint). -/
structure SpriteSlot where
  type : String
  pos : Pos
deriving DecidableEq, Repr

/-- A furniture shape from `roomCharacteristics`: stand offset, inputs,
optional output type, duration, priority, sprites, and the optional status
flag the furniture clears (doubling as the status required of a worker). -/
structure FurnitureShape where
  name : String
  priority : Nat
  ticks : Nat
  stand : Pos
  inputs : List InputSlot
  output : Option String
  sprites : List SpriteSlot
  status : Option StatusFlag
deriving DecidableEq, Repr

/-- The room types of `roomCharacteristics`. -/
inductive RoomType where
  | wilderness
  | openRoom
  | farm
  | kitchen
  | bedroom
  | dining
  | toolShop
deriving DecidableEq, Repr

/-- `roomCharacteristics[type].furnitureShape`.  `none` covers both the
missing key (wilderness) and the explicit `null` (open). -/
def furnitureShapeOf : RoomType → Option FurnitureShape
  | .wilderness => none
  | .openRoom => none
  | .farm => some
      { name := "field", priority := 10, ticks := 30, stand := ⟨0, 0⟩,
        inputs := [], output := some "rawfood",
        sprites := [⟨"wheat", ⟨0, 0⟩⟩], status := none }
  | .kitchen => some
      { name := "stove", priority := 11, ticks := 20, stand := ⟨0, 1⟩,
        inputs := [⟨"rawfood", ⟨0, 0⟩⟩], output := some "meal",
        sprites := [⟨"cooking_pot", ⟨0, 0⟩⟩], status := none }
  | .bedroom => some
      { name := "bed", priority := 20, ticks := 160, stand := ⟨0, 0⟩,
        inputs := [], output := none,
        sprites := [⟨"bed", ⟨0, 0⟩⟩], status := some .sleepy }
  | .dining => some
      { name := "table", priority := 21, ticks := 20, stand := ⟨0, 1⟩,
        inputs := [⟨"meal", ⟨0, 0⟩⟩], output := none,
        sprites := [⟨"table", ⟨0, 0⟩⟩], status := some .hungry }
  | .toolShop => some
      { name := "crafting", priority := 1, ticks := 60, stand := ⟨0, 1⟩,
        inputs := [⟨"iron", ⟨-1, 0⟩⟩, ⟨"wood", ⟨0, -1⟩⟩],
        output := some "axe",
        sprites := [⟨"table", ⟨0, 0⟩⟩], status := none }

/-- A room rectangle. -/
structure Rect where
  left : Int
  right : Int
  top : Int
  bottom : Int
deriving DecidableEq, Repr

/-- A room: type, bounds, unlocked flag, and furniture instance positions. -/
structure Room where
  type : RoomType
  rect : Rect
  unlocked : Bool
  furniture : List Pos
deriving DecidableEq, Repr

/-- Job kinds.  (`deleteJob` briefly writes `"#deleted#"` into a job's type
before removing it from the table; the job is out of the table on the same
call, so table entries are always one of these two.) -/
inductive JobType where
  | transport
  | production
deriving DecidableEq, Repr

/-- A row of the jobs table.  `room` is a snapshot of the referenced room
(rooms are not mutated during simulation), `colonist` and `item` are ids,
`stand`/`timeCompleted` are unset (`undefined`/`null`) on transport jobs. -/
structure Job where
  id : Nat
  type : JobType
  room : Room
  furniture : Pos
  colonist : Nat
  item : Option Nat
  dest : Pos
  stand : Option Pos
  timeCompleted : Option Nat
deriving DecidableEq, Repr

/-- A diagnostic entry of `jobs.candidates`.  Transport entries carry the
input slot; production entries do not. -/
structure Candidate where
  room : Room
  furniture : Pos
  input : Option InputSlot
  status : String
deriving DecidableEq, Repr

/-- The mutable global state: the map (`walkable`, `rooms`, `items`), the
colonist roster, the jobs table with its id counter and diagnostic list,
the item id counter, and the tick counter. -/
structure World where
  walkable : List Pos
  rooms : List Room
  items : List Item
  colonists : List Colonist
  table : List Job
  candidates : List Candidate
  jobsNextId : Nat
  itemsNextId : Nat
  tickId : Nat
deriving DecidableEq, Repr

/-- Look a colonist up by id (JS passes the object itself; ids are unique
by construction of the roster). -/
def getColonist (w : World) (cid : Nat) : Option Colonist :=
  w.colonists.find? (·.id = cid)

/-- Look an item up by id (JS passes the object itself). -/
def getItem (w : World) (iid : Nat) : Option Item :=
  w.items.find? (·.id = iid)

--------------------------------------------------------------------------
-- Item registry

/-- `findItemOnTile(pos)`: the first ground item at a position. -/
def findItemOnTile (w : World) (pos : Pos) : Option Item :=
  w.items.find? fun item =>
    match item.pos with
    | .ground p => pos = p
    | .held _ => false

/-- `findItemsOfType(type)`. -/
def findItemsOfType (w : World) (type : String) : List Item :=
  w.items.filter (·.type = type)

/-- `itemCreate(type, colonist)`: the colonist's inventory slot must be
empty (a fatal invariant error otherwise — the throw happens before any
mutation); allocates a new item located at the colonist and links the two.
Mutation is modelled functionally, so the `.error` outcomes carry no state
change at all. -/
def itemCreate (w : World) (type : String) (cid : Nat) :
    Except String (World × Item) :=
  match getColonist w cid with
  | none => .error "itemCreate: unknown colonist"
  | some c =>
    match c.inventory with
    | some _ =>
      .error ("Can't create item " ++ type ++ ", colonist inventory not empty")
    | none =>
      let item : Item :=
        ⟨w.itemsNextId + 1, type, .held cid⟩
      .ok ({ w with
              itemsNextId := w.itemsNextId + 1,
              items := w.items ++ [item],
              colonists := w.colonists.map fun c' =>
                if c'.id = cid then { c' with inventory := some item.id }
                else c' },
           item)

/-- `itemDestroy(item)`: the item must be on the ground; removes it from
the registry. -/
def itemDestroy (w : World) (iid : Nat) : Except String World :=
  match getItem w iid with
  | none => .error "Item not found in items list"
  | some item =>
    match item.pos with
    | .held _ => .error "Can't destroy unless on the ground"
    | .ground _ => .ok { w with items := w.items.eraseP (·.id = iid) }

/-- `itemPickUp(colonist, item)`: if the item is on the ground the colonist
must stand on it; the inventory slot must be empty; relocates the item to
the colonist and fills the slot.  (Notably, the source does not reject an
item that is carried by a different colonist: `isItemPosOnGround` is false
for it, so the position check is skipped.) -/
def itemPickUp (w : World) (cid : Nat) (iid : Nat) : Except String World :=
  match getColonist w cid, getItem w iid with
  | none, _ => .error "itemPickUp: unknown colonist"
  | _, none => .error "itemPickUp: unknown item"
  | some c, some item =>
    -- `if (isItemPosOnGround(pos) && !colonist.pos.equals(pos)) throw …`
    let posCheckFails : Bool :=
      match item.pos with
      | .ground p => decide (c.pos ≠ p)
      | .held _ => false
    if posCheckFails then
      .error ("Can't pick up item " ++ item.type ++ ", not where colonist is")
    else
      match c.inventory with
      | some _ =>
        .error ("Can't pick up item " ++ item.type ++ ", colonist inventory not empty")
      | none =>
        .ok { w with
              items := w.items.map fun it =>
                if it.id = iid then { it with pos := .held cid } else it,
              colonists := w.colonists.map fun c' =>
                if c'.id = cid then { c' with inventory := some iid } else c' }

/-- `itemDrop(colonist, item)`: the item must be carried by this colonist
and the colonist's tile must hold no other ground item; relocates the item
to the tile and clears the inventory slot. -/
def itemDrop (w : World) (cid : Nat) (iid : Nat) : Except String World :=
  match getColonist w cid, getItem w iid with
  | none, _ => .error "itemDrop: unknown colonist"
  | _, none => .error "itemDrop: unknown item"
  | some c, some item =>
    if item.pos ≠ .held cid then
      .error ("Can't drop item " ++ item.type ++ " that's not carried")
    else if (findItemOnTile w c.pos).isSome then
      .error ("Can't drop item " ++ item.type ++ " because tile occupied")
    else
      .ok { w with
            items := w.items.map fun it =>
              if it.id = iid then { it with pos := .ground c.pos } else it,
            colonists := w.colonists.map fun c' =>
              if c'.id = cid then { c' with inventory := none } else c' }

--------------------------------------------------------------------------
-- The carrying link (C7, C10)

/-- Forward link: if a colonist's inventory slot is occupied, it references
an item of the registry whose location is that colonist. -/
def colonistLinked (items : List Item) (c : Colonist) : Prop :=
  match c.inventory with
  | none => True
  | some iid => ∃ it ∈ items, it.id = iid ∧ it.pos = .held c.id

instance (items : List Item) (c : Colonist) :
    Decidable (colonistLinked items c) :=
  match c with
  | ⟨_, _, _, _, _, none⟩ => .isTrue trivial
  | ⟨_, _, _, _, _, some _⟩ =>
    inferInstanceAs (Decidable (∃ _ ∈ items, _ ∧ _))

/-- Backward link: a carried item's carrier has an inventory slot
referencing it back. -/
def itemLinked (colonists : List Colonist) (it : Item) : Prop :=
  match it.pos with
  | .ground _ => True
  | .held cid => ∃ c ∈ colonists, c.id = cid ∧ c.inventory = some it.id

instance (colonists : List Colonist) (it : Item) :
    Decidable (itemLinked colonists it) :=
  match it with
  | ⟨_, _, .ground _⟩ => .isTrue trivial
  | ⟨_, _, .held _⟩ =>
    inferInstanceAs (Decidable (∃ _ ∈ colonists, _ ∧ _))

/-- The bidirectional carrying link between colonist inventories and item
locations. -/
def CarryLink (w : World) : Prop :=
  (∀ c ∈ w.colonists, colonistLinked w.items c) ∧
  (∀ it ∈ w.items, itemLinked w.colonists it)

instance (w : World) : Decidable (CarryLink w) :=
  inferInstanceAs (Decidable (_ ∧ _))

/-- Item and colonist ids are pairwise distinct — true of the running
program, whose ids come from ever-increasing counters. -/
def IdsNodup (w : World) : Prop :=
  (w.items.map (·.id)).Nodup ∧ (w.colonists.map (·.id)).Nodup

instance (w : World) : Decidable (IdsNodup w) :=
  inferInstanceAs (Decidable (_ ∧ _))

--------------------------------------------------------------------------
-- Jobs table

/-- `jobs.lookupDest(dest)`. -/
def lookupDest (table : List Job) (dest : Pos) : Option Job :=
  table.find? fun row => dest = row.dest

/-- `jobs.lookupStand(stand)`: `row.stand && stand.equals(row.stand)` —
transport rows (stand `undefined`) never match. -/
def lookupStand (table : List Job) (stand : Pos) : Option Job :=
  table.find? fun row =>
    match row.stand with
    | some s => stand = s
    | none => false

/-- `jobs.lookupItem(item)`: reference equality on the item, here by id;
rows with `item === undefined` never match a real item. -/
def lookupItem (table : List Job) (iid : Nat) : Option Job :=
  table.find? fun row => row.item = some iid

/-- `jobs.lookupColonist(colonist)`. -/
def lookupColonist (table : List Job) (cid : Nat) : Option Job :=
  table.find? fun row => row.colonist = cid

/-- `jobs.addTransportJob(room, furniture, colonist, item, dest)`: resets
the colonist's pending path (abandoning a leftover vacate-the-stand walk)
and appends the new row to the table. -/
def addTransportJob (w : World) (room : Room) (furniture : Pos) (cid : Nat)
    (iid : Nat) (dest : Pos) : World :=
  { w with
    colonists := w.colonists.map fun c =>
      if c.id = cid then { c with path := [] } else c,
    jobsNextId := w.jobsNextId + 1,
    table := w.table ++
      [{ id := w.jobsNextId + 1, type := .transport, room, furniture,
         colonist := cid, item := some iid, dest,
         stand := none, timeCompleted := none }] }

/-- `jobs.addProductionJob(room, furniture, colonist, stand, dest)`: same
path reset, production row. -/
def addProductionJob (w : World) (room : Room) (furniture : Pos) (cid : Nat)
    (stand : Pos) (dest : Pos) : World :=
  { w with
    colonists := w.colonists.map fun c =>
      if c.id = cid then { c with path := [] } else c,
    jobsNextId := w.jobsNextId + 1,
    table := w.table ++
      [{ id := w.jobsNextId + 1, type := .production, room, furniture,
         colonist := cid, item := none, dest,
         stand := some stand, timeCompleted := none }] }

/-- `jobs.deleteJob(job)`: removing a job that is not in the table is a
fatal error; otherwise the row is spliced out. -/
def deleteJob (w : World) (jid : Nat) : Except String World :=
  if w.table.any (·.id = jid) then
    .ok { w with table := w.table.eraseP (·.id = jid) }
  else
    .error "Deleting job not in table"

/-- Mutate the job object with a given id in place (JS mutates the object
held by the table; job ids are unique, as they come from a counter). -/
def updateJob (w : World) (jid : Nat) (f : Job → Job) : World :=
  { w with table := w.table.map fun j => if j.id = jid then f j else j }

/-- Mutate the colonist object with a given id in place. -/
def updateColonist (w : World) (cid : Nat) (f : Colonist → Colonist) : World :=
  { w with colonists := w.colonists.map fun c =>
      if c.id = cid then f c else c }

--------------------------------------------------------------------------
-- Scheduler (jobs.simulate)

/-- `positionsOccupiedByFurniture(room, pos)`: the world positions covered
by a furniture piece anchored at `pos` — stand, input slots and sprites.
(The source collects them in a Map keyed by `toString()`; only membership
is ever used.) -/
def positionsOccupiedByFurniture (room : Room) (pos : Pos) : List Pos :=
  match furnitureShapeOf room.type with
  | none => []
  | some shape =>
    [⟨shape.stand.x + pos.x, shape.stand.y + pos.y⟩] ++
    shape.inputs.map (fun v => ⟨v.pos.x + pos.x, v.pos.y + pos.y⟩) ++
    shape.sprites.map (fun v => ⟨v.pos.x + pos.x, v.pos.y + pos.y⟩)

/-- The descending scan `for (let v = hi; v > lo; v--)`. -/
def intRangeDesc (hi lo : Int) : List Int :=
  (List.range (hi - lo).toNat).map fun i => hi - i

/-- `findOpenOutputTile(room)`: the first tile scanning x right-to-left
(outer) and y bottom-to-top (inner) that has no ground item, is not the
destination of any job, and is not covered by any furniture footprint. -/
def findOpenOutputTile (w : World) (room : Room) : Option Pos :=
  let occupiedByFurniture :=
    room.furniture.flatMap (positionsOccupiedByFurniture room)
  let xs := intRangeDesc (room.rect.right - 1) room.rect.left
  let ys := intRangeDesc (room.rect.bottom - 1) room.rect.top
  (xs.flatMap fun x => ys.map fun y => (⟨x, y⟩ : Pos)).find? fun pos =>
    (findItemOnTile w pos).isNone && (lookupDest w.table pos).isNone &&
      decide (pos ∉ occupiedByFurniture)

/-- The set of all furniture input positions, computed at the top of
`jobs.simulate`; items resting there are never picked up for transport.
A room with furniture but no shape would crash the source
(`….furnitureShape.inputs` on `undefined`); such rooms do not occur. -/
def furnitureInputPositions (w : World) : List Pos :=
  w.rooms.flatMap fun room =>
    room.furniture.flatMap fun furniture =>
      match furnitureShapeOf room.type with
      | none => []
      | some shape =>
        shape.inputs.map fun input =>
          ⟨furniture.x + input.pos.x, furniture.y + input.pos.y⟩

/-- `roomCharacteristics[room.type]?.furnitureShape?.priority || 0`. -/
def roomPriority (room : Room) : Nat :=
  match furnitureShapeOf room.type with
  | none => 0
  | some shape => shape.priority

/-- Insert `x` into a sorted list, before the first element `y` with
`le x y`; among ties the earlier-listed element stays first. -/
def sortInsert {α : Type} (le : α → α → Bool) (x : α) : List α → List α
  | [] => [x]
  | y :: ys => if le x y then x :: y :: ys else y :: sortInsert le x ys

/-- A stable sort (insertion sort), modelling `Array.prototype.sort`,
which ECMAScript specifies to be stable.  `le a b` holds when the
comparator returns `≤ 0` on `(a, b)`. -/
def stableSortBy {α : Type} (le : α → α → Bool) : List α → List α
  | [] => []
  | x :: xs => sortInsert le x (stableSortBy le xs)

/-- Push a diagnostic entry onto `jobs.candidates`. -/
def pushCandidate (w : World) (room : Room) (furniture : Pos)
    (input : Option InputSlot) (status : String) : World :=
  { w with candidates := w.candidates ++ [⟨room, furniture, input, status⟩] }

/-- The production branch of `jobs.simulate` for one furniture whose
inputs are all filled: skip if the stand is in use; pick the first idle
colonist carrying the required status flag (if any is required); find an
open output tile; create the production job. -/
def processProduction (w : World) (room : Room) (furniture : Pos)
    (shape : FurnitureShape) : World :=
  let stand : Pos :=
    ⟨furniture.x + shape.stand.x, furniture.y + shape.stand.y⟩
  if (lookupStand w.table stand).isSome then
    pushCandidate w room furniture none "Furniture in use"
  else
    match w.colonists.find? (fun c =>
        (lookupColonist w.table c.id).isNone &&
        (match shape.status with
         | none => true
         | some st => c.status st)) with
    | none => pushCandidate w room furniture none "No colonist available"
    | some colonist =>
      match findOpenOutputTile w room with
      | none => pushCandidate w room furniture none "No output tile available"
      | some dest => addProductionJob w room furniture colonist.id stand dest

/-- The transport item selection: items of the required type, not claimed
by any job, and not resting on any furniture input slot.  (A carried
item's `toString()` is never a tile key, so the input-position filter
keeps it; such items are always claimed by a job anyway.) -/
def availableTransportItems (fip : List Pos) (w : World) (type : String) :
    List Item :=
  ((findItemsOfType w type).filter
    (fun item => (lookupItem w.table item.id).isNone)).filter
    (fun item =>
      match item.pos with
      | .ground p => decide (p ∉ fip)
      | .held _ => true)

/-- One iteration of the transport loop of `jobs.simulate`: one input slot
with its world position and the (precomputed) item lying there. -/
def processTransportSlot (fip : List Pos) (room : Room) (furniture : Pos)
    (w : World) (input : InputSlot) (dest : Pos) (itemAt : Option Item) :
    World :=
  if itemAt.isSome then w
  else if (lookupDest w.table dest).isSome then
    pushCandidate w room furniture (some input) "Destination reserved"
  else
    match w.colonists.find? (fun c => (lookupColonist w.table c.id).isNone) with
    | none => pushCandidate w room furniture (some input) "No colonist available"
    | some colonist =>
      match availableTransportItems fip w input.type with
      | [] => pushCandidate w room furniture (some input) "No items available"
      | item :: _ => addTransportJob w room furniture colonist.id item.id dest

/-- Process one furniture instance of `jobs.simulate`'s scan: a production
candidate when every input slot holds an item, otherwise one transport
candidate per unfilled slot.  A furniture in a room without a shape would
crash the source and cannot occur. -/
def processFurniture (fip : List Pos) (w : World) (room : Room)
    (furniture : Pos) : World :=
  match furnitureShapeOf room.type with
  | none => w
  | some shape =>
    let inputPositions := shape.inputs.map fun input =>
      (⟨furniture.x + input.pos.x, furniture.y + input.pos.y⟩ : Pos)
    let inputItems := inputPositions.map (findItemOnTile w)
    if inputItems.all (·.isSome) then
      processProduction w room furniture shape
    else
      (shape.inputs.zip (inputPositions.zip inputItems)).foldl
        (fun w slot =>
          processTransportSlot fip room furniture w slot.1 slot.2.1 slot.2.2)
        w

/-- Process every furniture of one room, in order. -/
def roomStep (fip : List Pos) (w : World) (room : Room) : World :=
  room.furniture.foldl (fun w f => processFurniture fip w room f) w

/-- `jobs.simulate()`: compute the reserved input positions, clear the
diagnostic list, and scan all rooms in descending fixture priority
(`[...map.rooms].sort(…)` is a stable sort) processing each furniture. -/
def jobsSimulate (w : World) : World :=
  let fip := furnitureInputPositions w
  let w' := { w with candidates := [] }
  let sortedRooms :=
    stableSortBy (fun a b => decide (roomPriority b ≤ roomPriority a)) w'.rooms
  sortedRooms.foldl (roomStep fip) w'

--------------------------------------------------------------------------
-- Agent task executor (Colonist.simulate)

/-- The throw for a transport item that is no longer on the ground. -/
def jobItemNotOnGroundMsg (job : Job) : String :=
  "Job j" ++ toString job.id ++ ": colonist c" ++ toString job.colonist ++
  ", item should be on ground but is not"

/-- Destroy the input items of a completed production cycle, one per input
slot at its furniture-relative offset.  A missing item is a TypeError in
the source (`itemDestroy(null)`), modelled as an error. -/
def destroyInputs (w : World) (furniture : Pos) :
    List InputSlot → Except String World
  | [] => .ok w
  | input :: rest =>
    match findItemOnTile w
        ⟨furniture.x + input.pos.x, furniture.y + input.pos.y⟩ with
    | none => .error "production input item missing"
    | some item =>
      match itemDestroy w item.id with
      | .error e => .error e
      | .ok w' => destroyInputs w' furniture rest

/-- The transport branch of `Colonist.simulate`. -/
def transportStep (w : World) (c : Colonist) (job : Job) :
    Except String World :=
  match c.inventory with
  | some iid =>
    -- carrying: must be at the destination; drop and delete the job
    if c.pos ≠ job.dest then .error "¹Should be at dest by now"
    else
      match itemDrop w c.id iid with
      | .error e => .error e
      | .ok w' => deleteJob w' job.id
  | none =>
    match job.item with
    | none => .error (jobItemNotOnGroundMsg job)
    | some iid =>
      match getItem w iid with
      | none => .error (jobItemNotOnGroundMsg job)
      | some item =>
        match item.pos with
        | .held _ => .error (jobItemNotOnGroundMsg job)
        | .ground ipos =>
          if c.pos = ipos then
            -- at the item: pick it up and path to the destination
            match itemPickUp w c.id iid with
            | .error e => .error e
            | .ok w' =>
              match findPath w'.walkable c.pos job.dest with
              | .error e => .error e
              | .ok path =>
                .ok (updateColonist w' c.id fun c' => { c' with path })
          else
            -- need to go to the item
            match findPath w.walkable c.pos ipos with
            | .error e => .error e
            | .ok path =>
              .ok (updateColonist w c.id fun c' => { c' with path })

/-- The completion step of a production job (`simulation.tickId >=
job.timeCompleted`): clear the timer, consume the inputs, clear the
status effect the furniture satisfies, emit the output item (attaching it
to the job) or delete an outputless job, then path to the destination. -/
def productionFinish (w : World) (c : Colonist) (job : Job)
    (shape : FurnitureShape) : Except String World :=
  let w1 := updateJob w job.id fun j => { j with timeCompleted := none }
  match destroyInputs w1 job.furniture shape.inputs with
  | .error e => .error e
  | .ok w2 =>
    let w3 := updateColonist w2 c.id fun c' => c'.clearStatus shape.status
    let after : Except String World :=
      match shape.output with
      | some outType =>
        match job.item with
        | some _ => .error "Production job shouldn't already have an item"
        | none =>
          match itemCreate w3 outType job.colonist with
          | .error e => .error e
          | .ok (w4, newItem) =>
            .ok (updateJob w4 job.id fun j =>
              { j with item := some newItem.id })
      | none => deleteJob w3 job.id
    match after with
    | .error e => .error e
    | .ok w5 =>
      match findPath w5.walkable c.pos job.dest with
      | .error e => .error e
      | .ok path =>
        .ok (updateColonist w5 c.id fun c' => { c' with path })

/-- The production branch of `Colonist.simulate`. -/
def productionStep (w : World) (c : Colonist) (job : Job) :
    Except String World :=
  match furnitureShapeOf job.room.type with
  | none => .error "production room has no furnitureShape"
  | some shape =>
    match c.inventory with
    | some iid =>
      -- carrying the output: must be at the destination; drop and delete
      if c.pos ≠ job.dest then .error "²Should be at dest by now"
      else
        match itemDrop w c.id iid with
        | .error e => .error e
        | .ok w' => deleteJob w' job.id
    | none =>
      match job.stand with
      | none => .error "production job stand missing"
      | some stand =>
        if c.pos ≠ stand then
          -- walk to the furniture
          match findPath w.walkable c.pos stand with
          | .error e => .error e
          | .ok path =>
            .ok (updateColonist w c.id fun c' => { c' with path })
        else
          match job.timeCompleted with
          | none =>
            -- start the production
            .ok (updateJob w job.id fun j =>
              { j with timeCompleted := some (w.tickId + shape.ticks) })
          | some tc =>
            if w.tickId ≥ tc then productionFinish w c job shape
            else
              -- waiting to do the job
              .ok w

/-- `Colonist.simulate()` for the colonist with the given id.  Moving
along a non-empty pending path takes strict precedence (`this.pos =
this.path.pop(); return`); otherwise the agent acts on its current job,
if any. -/
def colonistSimulate (w : World) (cid : Nat) : Except String World :=
  match getColonist w cid with
  | none => .ok w
  | some c =>
    match c.path.getLast? with
    | some newPos =>
      .ok (updateColonist w cid fun c' =>
        { c' with pos := newPos, path := c'.path.dropLast })
    | none =>
      match lookupColonist w.table c.id with
      | none => .ok w
      | some job =>
        match job.type with
        | .transport => transportStep w c job
        | .production => productionStep w c job

--------------------------------------------------------------------------
-- Simulation clock (simulation.simulate)

/-- `TICKS_PER_DAY`. -/
def TICKS_PER_DAY : Nat := 600

/-- `EVENT_TIMES_BY_HOUR[this.hour]`: the lookup only hits when the
fractional hour `24 * (tickId % 600) / 600` is one of the scheduled
integer hours. -/
def statusEventAt (tickId : Nat) : Option String :=
  let timeOfDay := tickId % TICKS_PER_DAY
  if 24 * timeOfDay % TICKS_PER_DAY = 0 then
    match 24 * timeOfDay / TICKS_PER_DAY with
    | 6 => some "eat"
    | 7 => some "work"
    | 12 => some "eat"
    | 13 => some "work"
    | 18 => some "eat"
    | 19 => some "work"
    | 22 => some "sleep"
    | _ => none
  else none

/-- The body of the per-colonist loop of `simulation.simulate()`: apply
the scheduled status effect, if any, then run the colonist's executor
step. -/
def clockStep (statusToSet : Option String) (w : World) (cid : Nat) :
    Except String World :=
  let w := if statusToSet = some "eat" then
      updateColonist w cid fun c => { c with hungry := true }
    else w
  let w := if statusToSet = some "sleep" then
      updateColonist w cid fun c => { c with sleepy := true }
    else w
  colonistSimulate w cid

/-- `simulation.simulate()`: advance the tick, apply the time-of-day
status effect to each colonist just before stepping it, then run the
scheduler once.  The roster itself never changes during a tick, so
iterating over the (unique) colonist ids mirrors the source's iteration
over the roster array. -/
def simulationSimulate (w : World) : Except String World :=
  let w1 := { w with tickId := w.tickId + 1 }
  let statusToSet := statusEventAt w1.tickId
  match (w1.colonists.map (·.id)).foldlM (clockStep statusToSet) w1 with
  | .error e => .error e
  | .ok w2 => .ok (jobsSimulate w2)

--------------------------------------------------------------------------
-- Fully open grids (for the pathfinding-correctness claim)

/-- Membership in a W×H rectangle anchored at the origin. -/
def inRect (W H : Nat) (p : Pos) : Prop :=
  0 ≤ p.x ∧ p.x < W ∧ 0 ≤ p.y ∧ p.y < H

instance (W H : Nat) (p : Pos) : Decidable (inRect W H p) :=
  inferInstanceAs (Decidable (_ ∧ _))

/-- A fully open W×H grid: every tile of the rectangle is walkable. -/
def openGrid (W H : Nat) : List Pos :=
  (List.range W).flatMap fun (i : Nat) =>
    (List.range H).map fun (j : Nat) => (⟨(i : Int), (j : Int)⟩ : Pos)

/-- The search invariant while the depth-`k` fringe is being scanned on a
fully open W×H grid: every recorded cost is the exact Manhattan distance
from the start (at most `k+1`), every tile at distance at most `k` is
recorded, each `came_from` link steps one unit closer to the start, every
recorded tile except the start has a `came_from` link, and the start is
recorded with cost 0. -/
def MidInv (W H : Nat) (start : Pos) (k : Nat) (st : BfsState) : Prop :=
  (∀ p c, st.cost p = some c →
    inRect W H p ∧ c = manhattan start p ∧ c ≤ k + 1) ∧
  (∀ p, inRect W H p → manhattan start p ≤ k →
    st.cost p = some (manhattan start p)) ∧
  (∀ p q, st.came p = some q → adjacent q p ∧
    manhattan start p = manhattan start q + 1 ∧ st.cost q ≠ none) ∧
  (∀ p, p ≠ start → st.cost p ≠ none → st.came p ≠ none) ∧
  st.cost start = some 0

/-- What path reconstruction needs of a finished search state: every
recorded tile other than the start has a `came_from` link to a recorded
adjacent tile one unit closer to the start. -/
def ChainOk (start : Pos) (st : BfsState) : Prop :=
  ∀ p, p ≠ start → st.cost p ≠ none →
    ∃ q, st.came p = some q ∧ adjacent q p ∧
      manhattan start q + 1 = manhattan start p ∧ st.cost q ≠ none

--------------------------------------------------------------------------
-- Scheduler-relevant world observations

/-- The colonist data the scheduler reads: id and the two status flags.
(`jobs.simulate` never reads positions, paths or inventories.) -/
def colonistKeys (w : World) : List (Nat × Bool × Bool) :=
  w.colonists.map fun c => (c.id, c.hungry, c.sleepy)

/-- Two worlds agree on everything the scheduler inspects besides the
jobs table: rooms, items, and the colonist roster's ids and statuses. -/
def SameStatics (wa wb : World) : Prop :=
  wa.rooms = wb.rooms ∧ wa.items = wb.items ∧
    colonistKeys wa = colonistKeys wb

--------------------------------------------------------------------------
-- Claimed table invariants

/-- No two jobs share a destination position. -/
def DistinctDests (table : List Job) : Prop :=
  (table.map (·.dest)).Nodup

instance (table : List Job) : Decidable (DistinctDests table) :=
  inferInstanceAs (Decidable (List.Nodup _))

/-- No two jobs are bound to the same colonist. -/
def DistinctColonists (table : List Job) : Prop :=
  (table.map (·.colonist)).Nodup

instance (table : List Job) : Decidable (DistinctColonists table) :=
  inferInstanceAs (Decidable (List.Nodup _))

--------------------------------------------------------------------------
-- Concrete worlds used by counterexamples and witnesses

/-- A world with colonist 2 carrying item 7 and colonist 1 empty-handed:
the starting point of the C10 counterexample. -/
def stealWorld : World :=
  { walkable := [], rooms := [],
    items := [⟨7, "wood", .held 2⟩],
    colonists := [⟨1, ⟨0, 0⟩, [], false, false, none⟩,
                  ⟨2, ⟨3, 0⟩, [], false, false, some 7⟩],
    table := [], candidates := [],
    jobsNextId := 0, itemsNextId := 7, tickId := 1 }

/-- The world produced by `itemPickUp stealWorld 1 7`: colonist 1 now
carries item 7, but colonist 2's inventory still references it. -/
def stealWorldAfter : World :=
  { stealWorld with
    items := [⟨7, "wood", .held 1⟩],
    colonists := [⟨1, ⟨0, 0⟩, [], false, false, some 7⟩,
                  ⟨2, ⟨3, 0⟩, [], false, false, some 7⟩] }

/-- A world with colonist 1 standing on ground item 7. -/
def groundPickWorld : World :=
  { walkable := [], rooms := [],
    items := [⟨7, "wood", .ground ⟨2, 3⟩⟩],
    colonists := [⟨1, ⟨2, 3⟩, [], false, false, none⟩],
    table := [], candidates := [],
    jobsNextId := 0, itemsNextId := 7, tickId := 1 }

/-- The world produced by `itemPickUp groundPickWorld 1 7`. -/
def groundPickWorldAfter : World :=
  { groundPickWorld with
    items := [⟨7, "wood", .held 1⟩],
    colonists := [⟨1, ⟨2, 3⟩, [], false, false, some 7⟩] }

/-- A world whose only colonist already carries an item (for the C7
witness). -/
def fullInventoryWorld : World :=
  { walkable := [], rooms := [],
    items := [⟨7, "wood", .held 1⟩],
    colonists := [⟨1, ⟨0, 0⟩, [], false, false, some 7⟩],
    table := [], candidates := [],
    jobsNextId := 0, itemsNextId := 7, tickId := 1 }

/-- Scenario B's priority-10 fixture: a farm room (field shape,
priority 10) with one furniture piece at (11,1). -/
def farmRoomB : Room :=
  { type := .farm, rect := ⟨10, 14, 0, 4⟩, unlocked := true,
    furniture := [⟨11, 1⟩] }

/-- Scenario B's priority-20 fixture: a bedroom (bed shape, priority 20)
with one furniture piece at (1,1). -/
def bedroomRoomB : Room :=
  { type := .bedroom, rect := ⟨0, 4, 0, 4⟩, unlocked := true,
    furniture := [⟨1, 1⟩] }

/-- Scenario B: both fixtures lack an assigned agent and exactly one idle
qualifying agent exists (sleepy, so it qualifies for the bed; field
requires no flag).  The farm room comes first in the roster to show the
scheduler reorders by priority. -/
def scenarioBWorld : World :=
  { walkable := [], rooms := [farmRoomB, bedroomRoomB],
    items := [],
    colonists := [⟨1, ⟨5, 5⟩, [], false, true, none⟩],
    table := [], candidates := [],
    jobsNextId := 0, itemsNextId := 0, tickId := 1 }

/-- The production job Scenario B's scheduler pass must create: the single
agent bound to the bed (priority 20), standing at (1,1), delivering to the
open tile (3,3). -/
def scenarioBJob : Job :=
  { id := 1, type := .production, room := bedroomRoomB, furniture := ⟨1, 1⟩,
    colonist := 1, item := none, dest := ⟨3, 3⟩,
    stand := some ⟨1, 1⟩, timeCompleted := none }

/-- A world with one colonist whose pending path is `[(9,9)]` (for the C9
witness: job creation abandons the leftover walk). -/
def pathWorld : World :=
  { walkable := [], rooms := [],
    items := [⟨7, "wood", .ground ⟨2, 2⟩⟩],
    colonists := [⟨1, ⟨5, 5⟩, [⟨9, 9⟩], false, false, none⟩],
    table := [], candidates := [],
    jobsNextId := 0, itemsNextId := 7, tickId := 1 }

/-- Scenario B's world after one full tick: the clock advances to tick 2
(no status event), the idle colonist does nothing, and the scheduler
creates the bed job. -/
def scenarioBTickResult : World :=
  jobsSimulate { scenarioBWorld with tickId := 2 }

/-- A world with one colonist mid-walk (pending path `[(2,2),(1,1)]`) who
also has a job, for the C8 witness: movement takes precedence. -/
def walkWorld : World :=
  { walkable := [], rooms := [farmRoomB],
    items := [],
    colonists := [⟨1, ⟨1, 2⟩, [⟨2, 2⟩, ⟨1, 1⟩], false, false, none⟩,
                  ⟨2, ⟨0, 0⟩, [], false, false, none⟩],
    table := [{ id := 3, type := .production, room := farmRoomB,
                furniture := ⟨11, 1⟩, colonist := 1, item := none,
                dest := ⟨13, 3⟩, stand := some ⟨11, 1⟩,
                timeCompleted := none }],
    candidates := [],
    jobsNextId := 3, itemsNextId := 0, tickId := 5 }

--------------------------------------------------------------------------
-- Theorems
--------------------------------------------------------------------------

--------------------------------------------------------------------------
-- C1: pathfinding failure is fatal, not a logged warning

/-- C1, counterexample.  On a map whose only walkable tile is the start,
the goal `1:0` is disconnected from the start `0:0`; findPath does NOT
log a warning and return without a path — it propagates the exception
thrown by breadthFirstSearch (`"Path not found … - should never happen"`),
an unrecoverable error.  The claimed non-fatal branch in findPath is dead
code, because breadthFirstSearch never returns a falsy value. -/
theorem findPath_disconnected_throws :
    findPath [⟨0, 0⟩] ⟨0, 0⟩ ⟨1, 0⟩ =
      .error "Path not found from 0:0 to 1:0 - should never happen" := by
  rfl

/-- C1, amended.  When the pathfinder finds no path (start and goal
disconnected), breadthFirstSearch throws, and findPath propagates that
same unrecoverable error to its caller; the failure is fatal, not a
logged warning leaving the agent without a path. -/
theorem findPath_propagates_bfs_error (walkable : List Pos)
    (start goal : Pos) (e : String)
    (h : breadthFirstSearch walkable start goal = .error e) :
    findPath walkable start goal = .error e := by
  unfold findPath
  rw [h]

/-- Witness for `findPath_propagates_bfs_error` at the disconnected map of
the counterexample. -/
theorem findPath_propagates_bfs_error_witness :
    findPath [(⟨0, 0⟩ : Pos)] ⟨0, 0⟩ ⟨1, 0⟩ =
      .error (bfsFailMsg ⟨0, 0⟩ ⟨1, 0⟩) :=
  findPath_propagates_bfs_error [⟨0, 0⟩] ⟨0, 0⟩ ⟨1, 0⟩ _ (by rfl)

--------------------------------------------------------------------------
-- C7: itemCreate with an occupied inventory slot is a fatal error

/-- C7.  `itemCreate` on a colonist whose inventory slot is occupied
throws the fatal invariant error.  The inventory test precedes every
mutation in the source, and in this functional embedding an `.error`
result carries no successor state at all, so the item registry and all
inventories are untouched: there is no `w'` with
`itemCreate w t cid = .ok (w', it)`. -/
theorem itemCreate_occupied_inventory_fatal (w : World) (t : String)
    (cid : Nat) (c : Colonist) (i : Nat)
    (hc : getColonist w cid = some c) (hi : c.inventory = some i) :
    itemCreate w t cid =
      .error ("Can't create item " ++ t ++ ", colonist inventory not empty") := by
  unfold itemCreate
  rw [hc]
  simp only
  rw [hi]

/-- Witness for `itemCreate_occupied_inventory_fatal`: a colonist already
holding item 7. -/
theorem itemCreate_occupied_inventory_fatal_witness :
    itemCreate fullInventoryWorld "meal" 1 =
      .error "Can't create item meal, colonist inventory not empty" :=
  itemCreate_occupied_inventory_fatal fullInventoryWorld "meal" 1
    ⟨1, ⟨0, 0⟩, [], false, false, some 7⟩ 7 (by rfl) (by rfl)

--------------------------------------------------------------------------
-- C10: the bidirectional carrying link

theorem getColonist_mem {w : World} {cid : Nat} {c : Colonist}
    (h : getColonist w cid = some c) : c ∈ w.colonists ∧ c.id = cid :=
  ⟨List.mem_of_find?_eq_some h, by simpa using List.find?_some h⟩

theorem getItem_mem {w : World} {iid : Nat} {it : Item}
    (h : getItem w iid = some it) : it ∈ w.items ∧ it.id = iid :=
  ⟨List.mem_of_find?_eq_some h, by simpa using List.find?_some h⟩

theorem colonistLinked_none {items : List Item} {c : Colonist}
    (h : c.inventory = none) : colonistLinked items c := by
  simp [colonistLinked, h]

theorem colonistLinked_some {items : List Item} {c : Colonist} {j : Nat}
    (h : c.inventory = some j) :
    colonistLinked items c ↔ ∃ it ∈ items, it.id = j ∧ it.pos = .held c.id := by
  simp [colonistLinked, h]

theorem itemLinked_ground {colonists : List Colonist} {it : Item} {p : Pos}
    (h : it.pos = .ground p) : itemLinked colonists it := by
  simp [itemLinked, h]

theorem itemLinked_held {colonists : List Colonist} {it : Item} {cid : Nat}
    (h : it.pos = .held cid) :
    itemLinked colonists it ↔
      ∃ c ∈ colonists, c.id = cid ∧ c.inventory = some it.id := by
  simp [itemLinked, h]

/-- Inversion of a successful `itemCreate`. -/
theorem itemCreate_ok_elim {w : World} {t : String} {cid : Nat} {w' : World}
    {it : Item} (h : itemCreate w t cid = .ok (w', it)) :
    ∃ c, getColonist w cid = some c ∧ c.inventory = none ∧
      it = ⟨w.itemsNextId + 1, t, .held cid⟩ ∧
      w' = { w with
             itemsNextId := w.itemsNextId + 1,
             items := w.items ++ [(⟨w.itemsNextId + 1, t, .held cid⟩ : Item)],
             colonists := w.colonists.map fun c' =>
               if c'.id = cid then
                 { c' with inventory := some (w.itemsNextId + 1) }
               else c' } := by
  unfold itemCreate at h
  cases hg : getColonist w cid with
  | none => rw [hg] at h; simp at h
  | some c =>
    rw [hg] at h
    simp only at h
    cases hinv : c.inventory with
    | some j => rw [hinv] at h; simp at h
    | none =>
      rw [hinv] at h
      simp only [Except.ok.injEq, Prod.mk.injEq] at h
      exact ⟨c, rfl, hinv, h.2.symm, h.1.symm⟩

/-- Inversion of a successful `itemPickUp`. -/
theorem itemPickUp_ok_elim {w : World} {cid iid : Nat} {w' : World}
    (h : itemPickUp w cid iid = .ok w') :
    ∃ c item, getColonist w cid = some c ∧ getItem w iid = some item ∧
      (∀ p, item.pos = .ground p → c.pos = p) ∧ c.inventory = none ∧
      w' = { w with
             items := w.items.map fun it =>
               if it.id = iid then { it with pos := .held cid } else it,
             colonists := w.colonists.map fun c' =>
               if c'.id = cid then { c' with inventory := some iid }
               else c' } := by
  unfold itemPickUp at h
  cases hg : getColonist w cid with
  | none => rw [hg] at h; simp at h
  | some c =>
    cases hi : getItem w iid with
    | none => rw [hg, hi] at h; simp at h
    | some item =>
      rw [hg, hi] at h
      simp only at h
      refine ⟨c, item, rfl, rfl, ?_⟩
      cases hp : item.pos with
      | ground p =>
        rw [hp] at h
        simp only at h
        by_cases hcp : c.pos = p
        · rw [if_neg (by simp [hcp])] at h
          refine ⟨fun q hq => ?_, ?_⟩
          · injection hq with h2
            exact h2 ▸ hcp
          cases hinv : c.inventory with
          | some j => rw [hinv] at h; simp at h
          | none =>
            rw [hinv] at h
            simp only [Except.ok.injEq] at h
            exact ⟨rfl, h.symm⟩
        · rw [if_pos (by simp [hcp])] at h
          simp at h
      | held cid2 =>
        rw [hp] at h
        simp only at h
        rw [if_neg (by simp)] at h
        refine ⟨fun q hq => ?_, ?_⟩
        · cases hq
        cases hinv : c.inventory with
        | some j => rw [hinv] at h; simp at h
        | none =>
          rw [hinv] at h
          simp only [Except.ok.injEq] at h
          exact ⟨rfl, h.symm⟩

/-- Inversion of a successful `itemDrop`. -/
theorem itemDrop_ok_elim {w : World} {cid iid : Nat} {w' : World}
    (h : itemDrop w cid iid = .ok w') :
    ∃ c item, getColonist w cid = some c ∧ getItem w iid = some item ∧
      item.pos = .held cid ∧ findItemOnTile w c.pos = none ∧
      w' = { w with
             items := w.items.map fun it =>
               if it.id = iid then { it with pos := .ground c.pos } else it,
             colonists := w.colonists.map fun c' =>
               if c'.id = cid then { c' with inventory := none }
               else c' } := by
  unfold itemDrop at h
  cases hg : getColonist w cid with
  | none => rw [hg] at h; simp at h
  | some c =>
    cases hi : getItem w iid with
    | none => rw [hg, hi] at h; simp at h
    | some item =>
      rw [hg, hi] at h
      simp only at h
      by_cases hp : item.pos = .held cid
      · rw [if_neg (by simp [hp])] at h
        cases ht : findItemOnTile w c.pos with
        | some other => rw [ht] at h; simp at h
        | none =>
          rw [ht] at h
          simp only [Option.isSome_none, Bool.false_eq_true, if_false,
            Except.ok.injEq] at h
          exact ⟨c, item, rfl, rfl, hp, ht, h.symm⟩
      · rw [if_pos hp] at h
        simp at h

/-- A successful `itemCreate` preserves the carrying link. -/
theorem itemCreate_preserves_carryLink {w : World}
    (_hni : (w.items.map (·.id)).Nodup) (hnc : (w.colonists.map (·.id)).Nodup)
    (hCL : CarryLink w) {t : String} {cid : Nat} {w' : World} {it : Item}
    (h : itemCreate w t cid = .ok (w', it)) : CarryLink w' := by
  obtain ⟨c, hg, hinv, -, hw'⟩ := itemCreate_ok_elim h
  obtain ⟨hcmem, hcid⟩ := getColonist_mem hg
  subst hw'
  constructor
  · intro c1 hc1
    simp only [List.mem_map] at hc1
    obtain ⟨c0, hc0, rfl⟩ := hc1
    by_cases hid : c0.id = cid
    · rw [if_pos hid]
      refine (colonistLinked_some rfl).mpr
        ⟨⟨w.itemsNextId + 1, t, .held cid⟩, ?_, rfl, ?_⟩
      · simp
      · simp [hid]
    · rw [if_neg hid]
      cases hinv0 : c0.inventory with
      | none => exact colonistLinked_none hinv0
      | some j =>
        obtain ⟨it0, hmem, hid0, hpos⟩ :=
          (colonistLinked_some hinv0).mp (hCL.1 c0 hc0)
        exact (colonistLinked_some hinv0).mpr
          ⟨it0, List.mem_append_left _ hmem, hid0, hpos⟩
  · intro it1 hit1
    rcases List.mem_append.mp hit1 with hold | hnew
    · cases hp : it1.pos with
      | ground p => exact itemLinked_ground hp
      | held cid' =>
        obtain ⟨c0, hc0, hc0id, hc0inv⟩ :=
          (itemLinked_held hp).mp (hCL.2 it1 hold)
        by_cases hcc : cid' = cid
        · exfalso
          subst hcc
          have hceq : c0 = c :=
            List.inj_on_of_nodup_map hnc hc0 hcmem (by rw [hc0id, hcid])
          rw [hceq, hinv] at hc0inv
          cases hc0inv
        · refine (itemLinked_held hp).mpr ⟨c0, ?_, hc0id, hc0inv⟩
          refine List.mem_map.mpr ⟨c0, hc0, ?_⟩
          rw [if_neg (by rw [hc0id]; exact hcc)]
    · simp only [List.mem_singleton] at hnew
      subst hnew
      refine (itemLinked_held rfl).mpr
        ⟨{ c with inventory := some (w.itemsNextId + 1) }, ?_, hcid, rfl⟩
      exact List.mem_map.mpr ⟨c, hcmem, by rw [if_pos hcid]⟩

/-- A successful `itemPickUp` of an item that is on the ground preserves
the carrying link.  (The on-the-ground hypothesis is essential: picking up
an item carried by a different colonist also succeeds but breaks the
link — see the counterexample.) -/
theorem itemPickUp_ground_preserves_carryLink {w : World}
    (hni : (w.items.map (·.id)).Nodup) (hnc : (w.colonists.map (·.id)).Nodup)
    (hCL : CarryLink w) {cid iid : Nat} {w' : World} {item : Item} {p : Pos}
    (hitem : getItem w iid = some item) (hground : item.pos = .ground p)
    (h : itemPickUp w cid iid = .ok w') : CarryLink w' := by
  obtain ⟨c, item2, hg, hitem2, -, hinv, hw'⟩ := itemPickUp_ok_elim h
  rw [hitem] at hitem2
  injection hitem2 with hitem2
  subst hitem2
  obtain ⟨hcmem, hcid⟩ := getColonist_mem hg
  obtain ⟨himem, hiid⟩ := getItem_mem hitem
  have itemUniq : ∀ it0 ∈ w.items, it0.id = iid → it0 = item := fun it0 h0 hid0 =>
    List.inj_on_of_nodup_map hni h0 himem (by rw [hid0, hiid])
  have colUniq : ∀ c0 ∈ w.colonists, c0.id = cid → c0 = c := fun c0 h0 hid0 =>
    List.inj_on_of_nodup_map hnc h0 hcmem (by rw [hid0, hcid])
  subst hw'
  constructor
  · intro c1 hc1
    simp only [List.mem_map] at hc1
    obtain ⟨c0, hc0, rfl⟩ := hc1
    by_cases hid : c0.id = cid
    · rw [if_pos hid]
      refine (colonistLinked_some rfl).mpr
        ⟨{ item with pos := .held cid }, ?_, hiid, ?_⟩
      · exact List.mem_map.mpr ⟨item, himem, by rw [if_pos hiid]⟩
      · simp [hid]
    · rw [if_neg hid]
      cases hinv0 : c0.inventory with
      | none => exact colonistLinked_none hinv0
      | some j =>
        obtain ⟨it0, hmem, hid0, hpos⟩ :=
          (colonistLinked_some hinv0).mp (hCL.1 c0 hc0)
        have hne : ¬ it0.id = iid := fun hii => by
          rw [itemUniq it0 hmem hii, hground] at hpos
          cases hpos
        refine (colonistLinked_some hinv0).mpr ⟨it0, ?_, hid0, hpos⟩
        exact List.mem_map.mpr ⟨it0, hmem, by rw [if_neg hne]⟩
  · intro it1 hit1
    simp only [List.mem_map] at hit1
    obtain ⟨it0, hit0, rfl⟩ := hit1
    by_cases hidi : it0.id = iid
    · rw [if_pos hidi]
      refine (itemLinked_held rfl).mpr
        ⟨{ c with inventory := some iid }, ?_, hcid, by rw [hidi]⟩
      exact List.mem_map.mpr ⟨c, hcmem, by rw [if_pos hcid]⟩
    · rw [if_neg hidi]
      cases hp0 : it0.pos with
      | ground q => exact itemLinked_ground hp0
      | held cid'' =>
        obtain ⟨c0, hc0, hc0id, hc0inv⟩ :=
          (itemLinked_held hp0).mp (hCL.2 it0 hit0)
        by_cases hcc : cid'' = cid
        · exfalso
          subst hcc
          rw [colUniq c0 hc0 hc0id, hinv] at hc0inv
          cases hc0inv
        · refine (itemLinked_held hp0).mpr ⟨c0, ?_, hc0id, hc0inv⟩
          refine List.mem_map.mpr ⟨c0, hc0, ?_⟩
          rw [if_neg (by rw [hc0id]; exact hcc)]

/-- A successful `itemDrop` preserves the carrying link. -/
theorem itemDrop_preserves_carryLink {w : World}
    (hni : (w.items.map (·.id)).Nodup) (hnc : (w.colonists.map (·.id)).Nodup)
    (hCL : CarryLink w) {cid iid : Nat} {w' : World}
    (h : itemDrop w cid iid = .ok w') : CarryLink w' := by
  obtain ⟨c, item, hg, hitem, hheld, -, hw'⟩ := itemDrop_ok_elim h
  obtain ⟨hcmem, hcid⟩ := getColonist_mem hg
  obtain ⟨himem, hiid⟩ := getItem_mem hitem
  have itemUniq : ∀ it0 ∈ w.items, it0.id = iid → it0 = item := fun it0 h0 hid0 =>
    List.inj_on_of_nodup_map hni h0 himem (by rw [hid0, hiid])
  have colUniq : ∀ c0 ∈ w.colonists, c0.id = cid → c0 = c := fun c0 h0 hid0 =>
    List.inj_on_of_nodup_map hnc h0 hcmem (by rw [hid0, hcid])
  -- the carrier's inventory references the dropped item, and nothing else
  obtain ⟨c0, hc0, hc0id, hcinv⟩ := (itemLinked_held hheld).mp (hCL.2 item himem)
  rw [colUniq c0 hc0 hc0id] at hcinv
  rw [hiid] at hcinv
  subst hw'
  constructor
  · intro c1 hc1
    simp only [List.mem_map] at hc1
    obtain ⟨c0', hc0', rfl⟩ := hc1
    by_cases hid : c0'.id = cid
    · rw [if_pos hid]
      exact colonistLinked_none rfl
    · rw [if_neg hid]
      cases hinv0 : c0'.inventory with
      | none => exact colonistLinked_none hinv0
      | some j =>
        obtain ⟨it0, hmem, hid0, hpos⟩ :=
          (colonistLinked_some hinv0).mp (hCL.1 c0' hc0')
        have hne : ¬ it0.id = iid := fun hii => by
          rw [itemUniq it0 hmem hii, hheld] at hpos
          injection hpos with h2
          exact hid h2.symm
        refine (colonistLinked_some hinv0).mpr ⟨it0, ?_, hid0, hpos⟩
        exact List.mem_map.mpr ⟨it0, hmem, by rw [if_neg hne]⟩
  · intro it1 hit1
    simp only [List.mem_map] at hit1
    obtain ⟨it0, hit0, rfl⟩ := hit1
    by_cases hidi : it0.id = iid
    · rw [if_pos hidi]
      exact itemLinked_ground rfl
    · rw [if_neg hidi]
      cases hp0 : it0.pos with
      | ground q => exact itemLinked_ground hp0
      | held cid'' =>
        obtain ⟨c0', hc0', hc0id', hc0inv'⟩ :=
          (itemLinked_held hp0).mp (hCL.2 it0 hit0)
        by_cases hcc : cid'' = cid
        · exfalso
          subst hcc
          rw [colUniq c0' hc0' hc0id', hcinv] at hc0inv'
          injection hc0inv' with h2
          exact hidi h2.symm
        · refine (itemLinked_held hp0).mpr ⟨c0', ?_, hc0id', hc0inv'⟩
          refine List.mem_map.mpr ⟨c0', hc0', ?_⟩
          rw [if_neg (by rw [hc0id']; exact hcc)]

/-- C10, counterexample.  `itemPickUp` does not require the item to be on
the ground: with colonist 2 carrying item 7, colonist 1 (empty-handed)
successfully picks the item up, after which colonist 2's inventory still
references an item whose location is colonist 1 — the bidirectional
carrying link is broken.  (Ids are distinct, so no degenerate aliasing is
involved.) -/
theorem itemPickUp_carried_breaks_carryLink :
    CarryLink stealWorld ∧ IdsNodup stealWorld ∧
    itemPickUp stealWorld 1 7 = .ok stealWorldAfter ∧
    ¬ CarryLink stealWorldAfter := by
  refine ⟨by decide, by decide, by rfl, by decide⟩

/-- C10, amended.  Under distinct ids, `itemCreate` and `itemDrop`
preserve the bidirectional carrying link, and `itemPickUp` preserves it
when the picked item is on the ground — which is the only way the
simulation invokes it, since the transport branch verifies
`isItemPosOnGround(job.item.pos)` before picking up.  (Unrestricted
`itemPickUp` does not preserve the link; see the counterexample.) -/
theorem itemRegistry_ops_preserve_carryLink (w : World)
    (hids : IdsNodup w) (hCL : CarryLink w) :
    (∀ t cid w' it, itemCreate w t cid = .ok (w', it) → CarryLink w') ∧
    (∀ cid iid item p w', getItem w iid = some item →
       item.pos = .ground p → itemPickUp w cid iid = .ok w' → CarryLink w') ∧
    (∀ cid iid w', itemDrop w cid iid = .ok w' → CarryLink w') :=
  ⟨fun _ _ _ _ h => itemCreate_preserves_carryLink hids.1 hids.2 hCL h,
   fun _ _ _ _ _ hit hg h =>
     itemPickUp_ground_preserves_carryLink hids.1 hids.2 hCL hit hg h,
   fun _ _ _ h => itemDrop_preserves_carryLink hids.1 hids.2 hCL h⟩

/-- Witness for `itemRegistry_ops_preserve_carryLink`: a ground pickup on
a concrete world keeps the link intact. -/
theorem itemRegistry_ops_preserve_carryLink_witness :
    CarryLink groundPickWorldAfter :=
  (itemRegistry_ops_preserve_carryLink groundPickWorld (by decide)
      (by decide)).2.1
    1 7 ⟨7, "wood", .ground ⟨2, 3⟩⟩ ⟨2, 3⟩ groundPickWorldAfter
    (by rfl) (by rfl) (by rfl)

--------------------------------------------------------------------------
-- Scheduler preservation of the table invariants (C3, C6)

theorem foldlPreserves {α β : Type} (P : β → Prop) (step : β → α → β)
    (hstep : ∀ b a, P b → P (step b a)) :
    ∀ (l : List α) (b : β), P b → P (l.foldl step b)
  | [], _, hb => hb
  | a :: l, b, hb => foldlPreserves P step hstep l (step b a) (hstep b a hb)

theorem isSome_false_eq_none {α : Type} {o : Option α}
    (h : o.isSome = false) : o = none := by
  cases o with
  | none => rfl
  | some _ => simp at h

theorem lookupDest_none {table : List Job} {d : Pos}
    (h : lookupDest table d = none) : ∀ j ∈ table, ¬ d = j.dest := by
  intro j hj
  have := List.find?_eq_none.mp h j hj
  simpa using this

theorem lookupColonist_none {table : List Job} {cid : Nat}
    (h : lookupColonist table cid = none) : ∀ j ∈ table, ¬ j.colonist = cid := by
  intro j hj
  have := List.find?_eq_none.mp h j hj
  simpa using this

theorem not_mem_dests_of_lookupDest_none {table : List Job} {d : Pos}
    (h : lookupDest table d = none) : d ∉ table.map (·.dest) := by
  rw [List.mem_map]
  rintro ⟨j, hj, hdj⟩
  exact lookupDest_none h j hj hdj.symm

theorem not_mem_colonists_of_lookupColonist_none {table : List Job}
    {cid : Nat} (h : lookupColonist table cid = none) :
    cid ∉ table.map (·.colonist) := by
  rw [List.mem_map]
  rintro ⟨j, hj, hcj⟩
  exact lookupColonist_none h j hj hcj

theorem nodup_append_fresh {α : Type} {l : List α} {a : α}
    (hl : l.Nodup) (ha : a ∉ l) : (l ++ [a]).Nodup := by
  rw [List.nodup_append]
  refine ⟨hl, List.nodup_singleton a, ?_⟩
  intro x hx hxa
  rw [List.mem_singleton] at hxa
  exact ha (hxa ▸ hx)

theorem addTransportJob_dests (w : World) (room : Room) (f : Pos)
    (cid iid : Nat) (dest : Pos) :
    (addTransportJob w room f cid iid dest).table.map (·.dest) =
      w.table.map (·.dest) ++ [dest] := by
  simp [addTransportJob]

theorem addProductionJob_dests (w : World) (room : Room) (f : Pos)
    (cid : Nat) (stand dest : Pos) :
    (addProductionJob w room f cid stand dest).table.map (·.dest) =
      w.table.map (·.dest) ++ [dest] := by
  simp [addProductionJob]

theorem addTransportJob_colonists (w : World) (room : Room) (f : Pos)
    (cid iid : Nat) (dest : Pos) :
    (addTransportJob w room f cid iid dest).table.map (·.colonist) =
      w.table.map (·.colonist) ++ [cid] := by
  simp [addTransportJob]

theorem addProductionJob_colonists (w : World) (room : Room) (f : Pos)
    (cid : Nat) (stand dest : Pos) :
    (addProductionJob w room f cid stand dest).table.map (·.colonist) =
      w.table.map (·.colonist) ++ [cid] := by
  simp [addProductionJob]

/-- The tile returned by `findOpenOutputTile` is not the destination of
any job of the table. -/
theorem findOpenOutputTile_lookupDest {w : World} {room : Room} {pos : Pos}
    (h : findOpenOutputTile w room = some pos) :
    lookupDest w.table pos = none := by
  unfold findOpenOutputTile at h
  have hp := List.find?_some h
  simp only [Bool.and_eq_true] at hp
  exact Option.isNone_iff_eq_none.mp hp.1.2

/-- A found colonist for a production job is idle (bound to no job). -/
theorem processProduction_found_idle {w : World} {shape : FurnitureShape}
    {colonist : Colonist}
    (h : w.colonists.find? (fun c =>
        (lookupColonist w.table c.id).isNone &&
        (match shape.status with
         | none => true
         | some st => c.status st)) = some colonist) :
    lookupColonist w.table colonist.id = none := by
  have hp := List.find?_some h
  simp only [Bool.and_eq_true] at hp
  exact Option.isNone_iff_eq_none.mp hp.1

theorem processProduction_dests {w : World} {room : Room} {furniture : Pos}
    {shape : FurnitureShape} (hd : DistinctDests w.table) :
    DistinctDests (processProduction w room furniture shape).table := by
  unfold processProduction
  dsimp only
  split
  · exact hd
  · split
    · exact hd
    · next colonist hfind =>
      split
      · exact hd
      · next dest hdest =>
        show DistinctDests (addProductionJob w room furniture
          colonist.id _ dest).table
        unfold DistinctDests
        rw [addProductionJob_dests]
        exact nodup_append_fresh hd
          (not_mem_dests_of_lookupDest_none
            (findOpenOutputTile_lookupDest hdest))

theorem processProduction_colonists {w : World} {room : Room}
    {furniture : Pos} {shape : FurnitureShape}
    (hd : DistinctColonists w.table) :
    DistinctColonists (processProduction w room furniture shape).table := by
  unfold processProduction
  dsimp only
  split
  · exact hd
  · split
    · exact hd
    · next colonist hfind =>
      split
      · exact hd
      · next dest hdest =>
        show DistinctColonists (addProductionJob w room furniture
          colonist.id _ dest).table
        unfold DistinctColonists
        rw [addProductionJob_colonists]
        exact nodup_append_fresh hd
          (not_mem_colonists_of_lookupColonist_none
            (processProduction_found_idle hfind))

theorem processTransportSlot_dests {fip : List Pos} {room : Room}
    {furniture : Pos} {w : World} {input : InputSlot} {dest : Pos}
    {itemAt : Option Item} (hd : DistinctDests w.table) :
    DistinctDests
      (processTransportSlot fip room furniture w input dest itemAt).table := by
  unfold processTransportSlot
  split
  · exact hd
  · split
    · exact hd
    · next hnd =>
      split
      · exact hd
      · next colonist hfind =>
        split
        · exact hd
        · next item rest hitems =>
          show DistinctDests (addTransportJob w room furniture
            colonist.id item.id dest).table
          unfold DistinctDests
          rw [addTransportJob_dests]
          refine nodup_append_fresh hd
            (not_mem_dests_of_lookupDest_none (isSome_false_eq_none ?_))
          exact Bool.not_eq_true _ ▸ (by simpa using hnd)

theorem processTransportSlot_colonists {fip : List Pos} {room : Room}
    {furniture : Pos} {w : World} {input : InputSlot} {dest : Pos}
    {itemAt : Option Item} (hd : DistinctColonists w.table) :
    DistinctColonists
      (processTransportSlot fip room furniture w input dest itemAt).table := by
  unfold processTransportSlot
  split
  · exact hd
  · split
    · exact hd
    · split
      · exact hd
      · next colonist hfind =>
        split
        · exact hd
        · next item rest hitems =>
          show DistinctColonists (addTransportJob w room furniture
            colonist.id item.id dest).table
          unfold DistinctColonists
          rw [addTransportJob_colonists]
          refine nodup_append_fresh hd
            (not_mem_colonists_of_lookupColonist_none ?_)
          have hp := List.find?_some hfind
          simpa using hp

theorem processFurniture_dests {fip : List Pos} {w : World} {room : Room}
    {f : Pos} (hd : DistinctDests w.table) :
    DistinctDests (processFurniture fip w room f).table := by
  unfold processFurniture
  dsimp only
  split
  · exact hd
  · split
    · exact processProduction_dests hd
    · exact foldlPreserves (fun (w : World) => DistinctDests w.table) _
        (fun w a hw => processTransportSlot_dests hw) _ _ hd

theorem processFurniture_colonists {fip : List Pos} {w : World}
    {room : Room} {f : Pos} (hd : DistinctColonists w.table) :
    DistinctColonists (processFurniture fip w room f).table := by
  unfold processFurniture
  dsimp only
  split
  · exact hd
  · split
    · exact processProduction_colonists hd
    · exact foldlPreserves (fun (w : World) => DistinctColonists w.table) _
        (fun w a hw => processTransportSlot_colonists hw) _ _ hd

/-- One scheduler pass preserves destination distinctness: transport jobs
are only created after `lookupDest` comes back empty, and production jobs
deliver to a tile `findOpenOutputTile` verified to be no job's
destination — both checks run against the live table, including jobs
created earlier in the same pass. -/
theorem jobsSimulate_distinct_dests {w : World} (hd : DistinctDests w.table) :
    DistinctDests (jobsSimulate w).table := by
  unfold jobsSimulate
  exact foldlPreserves (fun (w : World) => DistinctDests w.table) _
    (fun w room hw => foldlPreserves (fun (w : World) => DistinctDests w.table) _
      (fun w f hw' => processFurniture_dests hw') _ _ hw) _ _ hd

/-- One scheduler pass preserves colonist distinctness: both branches
select a colonist only if `lookupColonist` finds no job bound to it in
the live table. -/
theorem jobsSimulate_distinct_colonists {w : World}
    (hd : DistinctColonists w.table) :
    DistinctColonists (jobsSimulate w).table := by
  unfold jobsSimulate
  exact foldlPreserves (fun (w : World) => DistinctColonists w.table) _
    (fun w room hw => foldlPreserves (fun (w : World) => DistinctColonists w.table) _
      (fun w f hw' => processFurniture_colonists hw') _ _ hw) _ _ hd

--------------------------------------------------------------------------
-- Executor preservation of the table invariants (C3, C6)
--
-- The executor never adds table rows: it deletes jobs and mutates only
-- their `timeCompleted`/`item` fields.  Hence for any projection `f`
-- insensitive to those two fields, the post-step projected table is a
-- sublist of the pre-step one.

theorem itemCreate_ok_tableEq {w : World} {t : String} {cid : Nat}
    {w' : World} {it : Item} (h : itemCreate w t cid = .ok (w', it)) :
    w'.table = w.table := by
  obtain ⟨c, -, -, -, hw'⟩ := itemCreate_ok_elim h
  rw [hw']

theorem itemPickUp_ok_tableEq {w : World} {cid iid : Nat} {w' : World}
    (h : itemPickUp w cid iid = .ok w') : w'.table = w.table := by
  obtain ⟨c, item, -, -, -, -, hw'⟩ := itemPickUp_ok_elim h
  rw [hw']

theorem itemDrop_ok_tableEq {w : World} {cid iid : Nat} {w' : World}
    (h : itemDrop w cid iid = .ok w') : w'.table = w.table := by
  obtain ⟨c, item, -, -, -, -, hw'⟩ := itemDrop_ok_elim h
  rw [hw']

theorem itemDestroy_ok_tableEq {w : World} {iid : Nat} {w' : World}
    (h : itemDestroy w iid = .ok w') : w'.table = w.table := by
  unfold itemDestroy at h
  split at h
  · simp at h
  · split at h
    · simp at h
    · simp only [Except.ok.injEq] at h
      rw [← h]

theorem destroyInputs_ok_tableEq {furn : Pos} :
    ∀ {inputs : List InputSlot} {w w' : World},
      destroyInputs w furn inputs = .ok w' → w'.table = w.table := by
  intro inputs
  induction inputs with
  | nil =>
    intro w w' h
    unfold destroyInputs at h
    simp only [Except.ok.injEq] at h
    rw [← h]
  | cons input rest ih =>
    intro w w' h
    unfold destroyInputs at h
    split at h
    · simp at h
    · split at h
      · simp at h
      · next w2 hdes =>
        rw [ih h, itemDestroy_ok_tableEq hdes]

theorem deleteJob_ok_table {w : World} {jid : Nat} {w' : World}
    (h : deleteJob w jid = .ok w') :
    w'.table = w.table.eraseP (·.id = jid) := by
  unfold deleteJob at h
  split at h
  · simp only [Except.ok.injEq] at h
    rw [← h]
  · simp at h

theorem updateJob_map_proj {γ : Type} (f : Job → γ) {g : Job → Job}
    (hg : ∀ j, f (g j) = f j) (w : World) (jid : Nat) :
    (updateJob w jid g).table.map f = w.table.map f := by
  show (w.table.map fun j => if j.id = jid then g j else j).map f =
    w.table.map f
  rw [List.map_map]
  apply List.map_congr_left
  intro j _
  by_cases h : j.id = jid
  · simp [h, hg j]
  · simp [h]

theorem transportStep_map_proj {γ : Type} (f : Job → γ)
    {w : World} {c : Colonist} {job : Job} {w' : World}
    (h : transportStep w c job = .ok w') :
    (w'.table.map f).Sublist (w.table.map f) := by
  unfold transportStep at h
  split at h
  · -- carrying: drop the item, delete the job
    split at h
    · simp at h
    · split at h
      · simp at h
      · next w1 hdrop =>
        rw [deleteJob_ok_table h, itemDrop_ok_tableEq hdrop]
        exact (List.eraseP_sublist _).map f
  · -- not carrying
    split at h
    · simp at h
    · split at h
      · simp at h
      · split at h
        · simp at h
        · split at h
          · -- at the item: pick up then path to dest
            split at h
            · simp at h
            · next w1 hpick =>
              split at h
              · simp at h
              · simp only [Except.ok.injEq] at h
                rw [← h]
                show (w1.table.map f).Sublist (w.table.map f)
                rw [itemPickUp_ok_tableEq hpick]
          · -- walk towards the item
            split at h
            · simp at h
            · simp only [Except.ok.injEq] at h
              rw [← h]
              exact List.Sublist.refl _

theorem productionFinish_map_proj {γ : Type} (f : Job → γ)
    (hT : ∀ (j : Job) (v : Option Nat), f { j with timeCompleted := v } = f j)
    (hI : ∀ (j : Job) (v : Option Nat), f { j with item := v } = f j)
    {w : World} {c : Colonist} {job : Job} {shape : FurnitureShape}
    {w' : World} (h : productionFinish w c job shape = .ok w') :
    (w'.table.map f).Sublist (w.table.map f) := by
  unfold productionFinish at h
  dsimp only at h
  cases hdes : destroyInputs
      (updateJob w job.id fun j => { j with timeCompleted := none })
      job.furniture shape.inputs with
  | error e => rw [hdes] at h; simp at h
  | ok w2 =>
    rw [hdes] at h
    dsimp only at h
    have h2 : w2.table.map f = w.table.map f := by
      rw [destroyInputs_ok_tableEq hdes]
      exact updateJob_map_proj f (fun j => hT j _) w job.id
    -- the `after` step: attach a created output, or delete the job
    have hafter : ∀ w5 : World,
        (match shape.output with
          | some outType =>
            match job.item with
            | some _ =>
              Except.error "Production job shouldn't already have an item"
            | none =>
              match itemCreate
                  (updateColonist w2 c.id fun c' => c'.clearStatus shape.status)
                  outType job.colonist with
              | .error e => .error e
              | .ok (w4, newItem) =>
                .ok (updateJob w4 job.id fun j =>
                  { j with item := some newItem.id })
          | none =>
            deleteJob (updateColonist w2 c.id fun c' =>
              c'.clearStatus shape.status) job.id) = .ok w5 →
        (w5.table.map f).Sublist (w2.table.map f) := by
      intro w5 hw5
      cases hout : shape.output with
      | some outType =>
        rw [hout] at hw5
        dsimp only at hw5
        cases hji : job.item with
        | some iid0 => rw [hji] at hw5; simp at hw5
        | none =>
          rw [hji] at hw5
          dsimp only at hw5
          cases hcreate : itemCreate
              (updateColonist w2 c.id fun c' => c'.clearStatus shape.status)
              outType job.colonist with
          | error e => rw [hcreate] at hw5; simp at hw5
          | ok pair =>
            obtain ⟨w4, newItem⟩ := pair
            rw [hcreate] at hw5
            dsimp only at hw5
            simp only [Except.ok.injEq] at hw5
            rw [← hw5]
            have h4 : w4.table = w2.table := by
              have := itemCreate_ok_tableEq hcreate
              simpa using this
            rw [updateJob_map_proj f (fun j => hI j _) w4 job.id, h4]
      | none =>
        rw [hout] at hw5
        dsimp only at hw5
        rw [deleteJob_ok_table hw5]
        have h3 := (@List.eraseP_sublist _ (·.id = job.id)
          ((updateColonist w2 c.id fun c' =>
            c'.clearStatus shape.status)).table).map f
        simpa using h3
    cases hca : (match shape.output with
      | some outType =>
        match job.item with
        | some _ =>
          Except.error "Production job shouldn't already have an item"
        | none =>
          match itemCreate
              (updateColonist w2 c.id fun c' => c'.clearStatus shape.status)
              outType job.colonist with
          | .error e => .error e
          | .ok (w4, newItem) =>
            .ok (updateJob w4 job.id fun j =>
              { j with item := some newItem.id })
      | none =>
        deleteJob (updateColonist w2 c.id fun c' =>
          c'.clearStatus shape.status) job.id : Except String World) with
    | error e => rw [hca] at h; simp at h
    | ok w5 =>
      rw [hca] at h
      dsimp only at h
      have h5 := hafter w5 hca
      rw [h2] at h5
      cases hfp : findPath w5.walkable c.pos job.dest with
      | error e => rw [hfp] at h; simp at h
      | ok path =>
        rw [hfp] at h
        dsimp only at h
        simp only [Except.ok.injEq] at h
        rw [← h]
        exact h5

theorem productionStep_map_proj {γ : Type} (f : Job → γ)
    (hT : ∀ (j : Job) (v : Option Nat), f { j with timeCompleted := v } = f j)
    (hI : ∀ (j : Job) (v : Option Nat), f { j with item := v } = f j)
    {w : World} {c : Colonist} {job : Job} {w' : World}
    (h : productionStep w c job = .ok w') :
    (w'.table.map f).Sublist (w.table.map f) := by
  unfold productionStep at h
  split at h
  · simp at h
  · split at h
    · -- carrying the output: drop and delete
      split at h
      · simp at h
      · split at h
        · simp at h
        · next w1 hdrop =>
          rw [deleteJob_ok_table h, itemDrop_ok_tableEq hdrop]
          exact (List.eraseP_sublist _).map f
    · split at h
      · simp at h
      · split at h
        · -- walk to the stand
          split at h
          · simp at h
          · simp only [Except.ok.injEq] at h
            rw [← h]
            exact List.Sublist.refl _
        · split at h
          · -- start the production: set the completion tick
            simp only [Except.ok.injEq] at h
            rw [← h]
            show ((updateJob w job.id _).table.map f).Sublist _
            rw [updateJob_map_proj f (fun j => hT j _) w job.id]
          · split at h
            · -- production finished
              exact productionFinish_map_proj f hT hI h
            · -- waiting
              simp only [Except.ok.injEq] at h
              rw [← h]

theorem colonistSimulate_map_proj {γ : Type} (f : Job → γ)
    (hT : ∀ (j : Job) (v : Option Nat), f { j with timeCompleted := v } = f j)
    (hI : ∀ (j : Job) (v : Option Nat), f { j with item := v } = f j)
    {w : World} {cid : Nat} {w' : World}
    (h : colonistSimulate w cid = .ok w') :
    (w'.table.map f).Sublist (w.table.map f) := by
  unfold colonistSimulate at h
  split at h
  · simp only [Except.ok.injEq] at h; rw [← h]
  · split at h
    · simp only [Except.ok.injEq] at h
      rw [← h]
      exact List.Sublist.refl _
    · split at h
      · simp only [Except.ok.injEq] at h; rw [← h]
      · split at h
        · exact transportStep_map_proj f h
        · exact productionStep_map_proj f hT hI h

theorem clockStep_map_proj {γ : Type} (f : Job → γ)
    (hT : ∀ (j : Job) (v : Option Nat), f { j with timeCompleted := v } = f j)
    (hI : ∀ (j : Job) (v : Option Nat), f { j with item := v } = f j)
    {s : Option String} {w : World} {cid : Nat} {w' : World}
    (h : clockStep s w cid = .ok w') :
    (w'.table.map f).Sublist (w.table.map f) := by
  unfold clockStep at h
  have h2 := colonistSimulate_map_proj f hT hI h
  have h3 : ((if s = some "sleep" then
      updateColonist (if s = some "eat" then
        updateColonist w cid fun c => { c with hungry := true }
      else w) cid fun c => { c with sleepy := true }
    else (if s = some "eat" then
      updateColonist w cid fun c => { c with hungry := true } else w)).table)
      = w.table := by
    split <;> split <;> rfl
  rw [h3] at h2
  exact h2

theorem clockLoop_map_proj {γ : Type} (f : Job → γ)
    (hT : ∀ (j : Job) (v : Option Nat), f { j with timeCompleted := v } = f j)
    (hI : ∀ (j : Job) (v : Option Nat), f { j with item := v } = f j)
    {s : Option String} :
    ∀ {cids : List Nat} {w w' : World},
      cids.foldlM (clockStep s) w = .ok w' →
      (w'.table.map f).Sublist (w.table.map f) := by
  intro cids
  induction cids with
  | nil =>
    intro w w' h
    rw [List.foldlM_nil] at h
    simp only [pure, Except.pure, Except.ok.injEq] at h
    rw [← h]
  | cons cid rest ih =>
    intro w w' h
    rw [List.foldlM_cons] at h
    cases hstep : clockStep s w cid with
    | error e => rw [hstep] at h; simp [Bind.bind, Except.bind] at h
    | ok w1 =>
      rw [hstep] at h
      simp only [Bind.bind, Except.bind] at h
      exact (ih h).trans (clockStep_map_proj f hT hI hstep)

--------------------------------------------------------------------------
-- C3 and C6: the per-tick table invariants

/-- C3.  A full simulation tick (clock, status effects, every agent's
executor step, then one scheduler pass) preserves "no two jobs share a
destination": the executor only deletes rows or mutates their
`timeCompleted`/`item` fields, transport-job creation first checks that
the slot is not already a job's destination, and production-job creation
delivers only to a tile `findOpenOutputTile` verified against the live
table.  With the initially empty table, every tick boundary satisfies the
invariant by induction. -/
theorem tick_preserves_distinct_dests (w w' : World)
    (hd : DistinctDests w.table) (h : simulationSimulate w = .ok w') :
    DistinctDests w'.table := by
  unfold simulationSimulate at h
  dsimp only at h
  split at h
  · simp at h
  · next w2 hloop =>
    simp only [Except.ok.injEq] at h
    rw [← h]
    apply jobsSimulate_distinct_dests
    have hsub := clockLoop_map_proj (fun j => j.dest)
      (fun j v => rfl) (fun j v => rfl) hloop
    exact hsub.nodup hd

/-- Witness for `tick_preserves_distinct_dests`: one tick of Scenario B's
world. -/
theorem tick_preserves_distinct_dests_witness :
    DistinctDests scenarioBTickResult.table :=
  tick_preserves_distinct_dests scenarioBWorld scenarioBTickResult
    (by decide) (by rfl)

/-- C6.  A full simulation tick preserves "each agent is bound to at most
one job": the executor never changes a row's colonist, and both scheduler
branches select a colonist only when `lookupColonist` finds no job bound
to it in the live table — including jobs created earlier in the same
pass.  With the initially empty table, every tick boundary satisfies the
invariant by induction. -/
theorem tick_preserves_distinct_job_colonists (w w' : World)
    (hd : DistinctColonists w.table) (h : simulationSimulate w = .ok w') :
    DistinctColonists w'.table := by
  unfold simulationSimulate at h
  dsimp only at h
  split at h
  · simp at h
  · next w2 hloop =>
    simp only [Except.ok.injEq] at h
    rw [← h]
    apply jobsSimulate_distinct_colonists
    have hsub := clockLoop_map_proj (fun j => j.colonist)
      (fun j v => rfl) (fun j v => rfl) hloop
    exact hsub.nodup hd

/-- Witness for `tick_preserves_distinct_job_colonists`: one tick of
Scenario B's world. -/
theorem tick_preserves_distinct_job_colonists_witness :
    DistinctColonists scenarioBTickResult.table :=
  tick_preserves_distinct_job_colonists scenarioBWorld scenarioBTickResult
    (by decide) (by rfl)

--------------------------------------------------------------------------
-- Scheduler idempotence (C2)
--
-- Strategy: the scheduler's decisions depend only on the "statics"
-- (rooms, items, colonist ids/statuses) and on the live jobs table, and
-- every skip condition is monotone in the table: a larger table only
-- produces more skips.  The second pass runs over the same statics with
-- the final table of the first pass, so every fixture that spawned a job
-- now hits the stand-in-use / destination-reserved check, and every
-- fixture that was skipped is skipped again.

theorem find?_isSome_mono {α : Type} {p : α → Bool} {l l' : List α}
    (hsub : l ⊆ l') (h : (l.find? p).isSome) : (l'.find? p).isSome := by
  rw [List.find?_isSome] at h ⊢
  obtain ⟨a, ha, hpa⟩ := h
  exact ⟨a, hsub ha, hpa⟩

theorem find?_none_anti {α : Type} {p : α → Bool} {l l' : List α}
    (hsub : l ⊆ l') (h : l'.find? p = none) : l.find? p = none := by
  rw [List.find?_eq_none] at h ⊢
  exact fun a ha => h a (hsub ha)

theorem lookupDest_none_anti {Ta Tb : List Job} {d : Pos}
    (hsub : Ta ⊆ Tb) (h : lookupDest Tb d = none) :
    lookupDest Ta d = none := by
  unfold lookupDest at h ⊢
  exact find?_none_anti hsub h

theorem lookupItem_none_anti {Ta Tb : List Job} {iid : Nat}
    (hsub : Ta ⊆ Tb) (h : lookupItem Tb iid = none) :
    lookupItem Ta iid = none := by
  unfold lookupItem at h ⊢
  exact find?_none_anti hsub h

theorem lookupColonist_none_anti {Ta Tb : List Job} {cid : Nat}
    (hsub : Ta ⊆ Tb) (h : lookupColonist Tb cid = none) :
    lookupColonist Ta cid = none := by
  unfold lookupColonist at h ⊢
  exact find?_none_anti hsub h

theorem findItemOnTile_congr {wa wb : World} (h : wa.items = wb.items)
    (pos : Pos) : findItemOnTile wa pos = findItemOnTile wb pos := by
  unfold findItemOnTile
  rw [h]

theorem findItemsOfType_congr {wa wb : World} (h : wa.items = wb.items)
    (ty : String) : findItemsOfType wa ty = findItemsOfType wb ty := by
  unfold findItemsOfType
  rw [h]

/-- Membership in the transport item selection. -/
theorem mem_availableTransportItems {fip : List Pos} {w : World}
    {ty : String} {it : Item} :
    it ∈ availableTransportItems fip w ty ↔
      it ∈ w.items ∧ it.type = ty ∧
      (lookupItem w.table it.id).isNone = true ∧
      (match it.pos with
       | .ground p => decide (p ∉ fip)
       | .held _ => true) = true := by
  unfold availableTransportItems findItemsOfType
  rw [List.mem_filter, List.mem_filter, List.mem_filter]
  constructor
  · rintro ⟨⟨⟨hmem, hty⟩, hcl⟩, hpos⟩
    exact ⟨hmem, by simpa using hty, hcl, hpos⟩
  · rintro ⟨hmem, hty, hcl, hpos⟩
    exact ⟨⟨⟨hmem, by simpa using hty⟩, hcl⟩, hpos⟩

/-- If no transport item is available against a table, none is available
against a larger table over the same items. -/
theorem availableTransportItems_nil_mono {fip : List Pos} {wa wb : World}
    (hitems : wa.items = wb.items) (hsub : wa.table ⊆ wb.table)
    {ty : String} (h : availableTransportItems fip wa ty = []) :
    availableTransportItems fip wb ty = [] := by
  rw [List.eq_nil_iff_forall_not_mem] at h ⊢
  intro it hit
  rw [mem_availableTransportItems] at hit
  obtain ⟨hmem, hty, hcl, hpos⟩ := hit
  refine h it (mem_availableTransportItems.mpr ⟨hitems ▸ hmem, hty, ?_, hpos⟩)
  rw [Option.isNone_iff_eq_none] at hcl ⊢
  exact lookupItem_none_anti hsub hcl

theorem lookupDest_isSome_mono {wa wb : List Job} {d : Pos}
    (hsub : wa ⊆ wb) (h : (lookupDest wa d).isSome) :
    (lookupDest wb d).isSome :=
  find?_isSome_mono hsub h

theorem lookupStand_isSome_mono {wa wb : List Job} {s : Pos}
    (hsub : wa ⊆ wb) (h : (lookupStand wa s).isSome) :
    (lookupStand wb s).isSome :=
  find?_isSome_mono hsub h

/-- A member job with the wanted destination makes `lookupDest` succeed. -/
theorem lookupDest_isSome_of_mem {table : List Job} {j : Job}
    (hj : j ∈ table) {d : Pos} (hd : d = j.dest) :
    (lookupDest table d).isSome := by
  unfold lookupDest
  rw [List.find?_isSome]
  exact ⟨j, hj, by simpa using hd⟩

theorem lookupStand_isSome_of_mem {table : List Job} {j : Job} {s : Pos}
    (hj : j ∈ table) (hs : j.stand = some s) :
    (lookupStand table s).isSome := by
  unfold lookupStand
  rw [List.find?_isSome]
  refine ⟨j, hj, ?_⟩
  rw [hs]
  simp

/-- Transfer a failed colonist search to a world with equal colonist keys
and a larger table: every disqualification is preserved. -/
theorem colonistFind_none_transfer {wa wb : World}
    (hk : colonistKeys wa = colonistKeys wb)
    {pa pb : Colonist → Bool}
    (himp : ∀ ca cb, ca.id = cb.id → ca.hungry = cb.hungry →
      ca.sleepy = cb.sleepy → pb cb = true → pa ca = true)
    (h : wa.colonists.find? pa = none) : wb.colonists.find? pb = none := by
  rw [List.find?_eq_none] at h ⊢
  intro cb hcb hpb
  have hmem : (cb.id, cb.hungry, cb.sleepy) ∈ colonistKeys wa := by
    rw [hk]
    exact List.mem_map_of_mem _ hcb
  obtain ⟨ca, hca, hkey⟩ := List.mem_map.mp hmem
  simp only [Prod.mk.injEq] at hkey
  exact h ca hca (himp ca cb hkey.1 hkey.2.1 hkey.2.2 hpb)

/-- If the first pass finds no open output tile, neither does a pass over
the same statics with a larger table. -/
theorem findOpenOutputTile_none_mono {wa wb : World} {room : Room}
    (hitems : wa.items = wb.items) (hsub : wa.table ⊆ wb.table)
    (h : findOpenOutputTile wa room = none) :
    findOpenOutputTile wb room = none := by
  unfold findOpenOutputTile at h ⊢
  rw [List.find?_eq_none] at h ⊢
  intro pos hpos hwb
  refine h pos hpos ?_
  simp only [Bool.and_eq_true] at hwb ⊢
  refine ⟨⟨?_, ?_⟩, hwb.2⟩
  · rw [findItemOnTile_congr hitems pos]
    exact hwb.1.1
  · rw [Option.isNone_iff_eq_none]
    exact lookupDest_none_anti hsub (Option.isNone_iff_eq_none.mp hwb.1.2)

--------------------------------------------------------------------------
-- Statics preservation and table growth of the scheduler steps

theorem colonistKeys_pathReset (w : World) (cid : Nat) :
    (w.colonists.map fun c =>
      if c.id = cid then { c with path := ([] : List Pos) } else c).map
        (fun c => (c.id, c.hungry, c.sleepy)) =
      colonistKeys w := by
  unfold colonistKeys
  rw [List.map_map]
  apply List.map_congr_left
  intro c _
  by_cases h : c.id = cid <;> simp [h]

theorem addTransportJob_statics (w : World) (room : Room) (f : Pos)
    (cid iid : Nat) (dest : Pos) :
    SameStatics w (addTransportJob w room f cid iid dest) :=
  ⟨rfl, rfl, (colonistKeys_pathReset w cid).symm⟩

theorem addProductionJob_statics (w : World) (room : Room) (f : Pos)
    (cid : Nat) (stand dest : Pos) :
    SameStatics w (addProductionJob w room f cid stand dest) :=
  ⟨rfl, rfl, (colonistKeys_pathReset w cid).symm⟩

theorem processTransportSlot_statics (fip : List Pos) (room : Room)
    (furniture : Pos) (w : World) (input : InputSlot) (dest : Pos)
    (itemAt : Option Item) :
    SameStatics w (processTransportSlot fip room furniture w input dest itemAt) := by
  unfold processTransportSlot
  split
  · exact ⟨rfl, rfl, rfl⟩
  · split
    · exact ⟨rfl, rfl, rfl⟩
    · split
      · exact ⟨rfl, rfl, rfl⟩
      · split
        · exact ⟨rfl, rfl, rfl⟩
        · exact addTransportJob_statics w room furniture _ _ dest

theorem processProduction_statics (w : World) (room : Room)
    (furniture : Pos) (shape : FurnitureShape) :
    SameStatics w (processProduction w room furniture shape) := by
  unfold processProduction
  dsimp only
  split
  · exact ⟨rfl, rfl, rfl⟩
  · split
    · exact ⟨rfl, rfl, rfl⟩
    · split
      · exact ⟨rfl, rfl, rfl⟩
      · exact addProductionJob_statics w room furniture _ _ _

theorem slotFold_statics (fip : List Pos) (room : Room) (f : Pos) :
    ∀ (slots : List (InputSlot × Pos × Option Item)) (w : World),
      SameStatics w (slots.foldl (fun w slot =>
        processTransportSlot fip room f w slot.1 slot.2.1 slot.2.2) w)
  | [], _ => ⟨rfl, rfl, rfl⟩
  | s :: rest, w => by
    rw [List.foldl_cons]
    have h1 := processTransportSlot_statics fip room f w s.1 s.2.1 s.2.2
    have h2 := slotFold_statics fip room f rest
      (processTransportSlot fip room f w s.1 s.2.1 s.2.2)
    exact ⟨h1.1.trans h2.1, h1.2.1.trans h2.2.1, h1.2.2.trans h2.2.2⟩

theorem processFurniture_statics (fip : List Pos) (w : World) (room : Room)
    (f : Pos) : SameStatics w (processFurniture fip w room f) := by
  unfold processFurniture
  split
  · exact ⟨rfl, rfl, rfl⟩
  · dsimp only
    split
    · exact processProduction_statics w room f _
    · exact slotFold_statics fip room f _ w

theorem processTransportSlot_grow (fip : List Pos) (room : Room)
    (furniture : Pos) (w : World) (input : InputSlot) (dest : Pos)
    (itemAt : Option Item) :
    w.table ⊆ (processTransportSlot fip room furniture w input dest itemAt).table := by
  unfold processTransportSlot
  split
  · exact fun _ h => h
  · split
    · exact fun _ h => h
    · split
      · exact fun _ h => h
      · split
        · exact fun _ h => h
        · intro j hj
          exact List.mem_append_left _ hj

theorem processProduction_grow (w : World) (room : Room) (furniture : Pos)
    (shape : FurnitureShape) :
    w.table ⊆ (processProduction w room furniture shape).table := by
  unfold processProduction
  dsimp only
  split
  · exact fun _ h => h
  · split
    · exact fun _ h => h
    · split
      · exact fun _ h => h
      · intro j hj
        exact List.mem_append_left _ hj

theorem slotFold_grow (fip : List Pos) (room : Room) (f : Pos) :
    ∀ (slots : List (InputSlot × Pos × Option Item)) (w : World),
      w.table ⊆ (slots.foldl (fun w slot =>
        processTransportSlot fip room f w slot.1 slot.2.1 slot.2.2) w).table
  | [], _ => fun _ h => h
  | s :: rest, w => by
    rw [List.foldl_cons]
    intro j hj
    exact slotFold_grow fip room f rest _
      (processTransportSlot_grow fip room f w s.1 s.2.1 s.2.2 hj)

theorem processFurniture_grow (fip : List Pos) (w : World) (room : Room)
    (f : Pos) : w.table ⊆ (processFurniture fip w room f).table := by
  unfold processFurniture
  split
  · exact fun _ h => h
  · dsimp only
    split
    · exact processProduction_grow w room f _
    · exact slotFold_grow fip room f _ w

--------------------------------------------------------------------------
-- Monotone skipping: a step whose products are already in a larger table
-- adds nothing when re-run against that table

theorem SameStatics.trans2 {w1 w2 w3 : World} (h1 : SameStatics w1 w2)
    (h2 : SameStatics w2 w3) : SameStatics w1 w3 :=
  ⟨h1.1.trans h2.1, h1.2.1.trans h2.2.1, h1.2.2.trans h2.2.2⟩

theorem processTransportSlot_idem {fip : List Pos} {room : Room}
    {furniture : Pos} {input : InputSlot} {dest : Pos} {itemAt : Option Item}
    {wa wb : World} (hst : SameStatics wa wb) (hsub : wa.table ⊆ wb.table)
    (hres : (processTransportSlot fip room furniture wa input dest
      itemAt).table ⊆ wb.table) :
    (processTransportSlot fip room furniture wb input dest itemAt).table =
      wb.table := by
  unfold processTransportSlot at hres ⊢
  by_cases h1 : itemAt.isSome
  · rw [if_pos h1]
  · rw [if_neg h1] at hres ⊢
    by_cases h2b : (lookupDest wb.table dest).isSome
    · rw [if_pos h2b]
      rfl
    · rw [if_neg h2b]
      have h2a : ¬ (lookupDest wa.table dest).isSome = true := fun hs =>
        h2b (lookupDest_isSome_mono hsub hs)
      rw [if_neg h2a] at hres
      cases hfa : wa.colonists.find?
          (fun c => (lookupColonist wa.table c.id).isNone) with
      | none =>
        have hfb : wb.colonists.find?
            (fun c => (lookupColonist wb.table c.id).isNone) = none := by
          refine colonistFind_none_transfer hst.2.2 ?_ hfa
          intro ca cb hid _ _ hpb
          simp only [Option.isNone_iff_eq_none] at hpb ⊢
          rw [hid]
          exact lookupColonist_none_anti hsub hpb
        rw [hfb]
        rfl
      | some colonist =>
        rw [hfa] at hres
        cases hfb : wb.colonists.find?
            (fun c => (lookupColonist wb.table c.id).isNone) with
        | none => rfl
        | some colonistB =>
          dsimp only
          cases hia : availableTransportItems fip wa input.type with
          | nil =>
            rw [availableTransportItems_nil_mono hst.2.1 hsub hia]
            rfl
          | cons item rest =>
            rw [hia] at hres
            exact absurd
              (lookupDest_isSome_of_mem
                (hres (List.mem_append_right _ (List.mem_singleton_self _)))
                rfl)
              h2b

theorem processProduction_idem {room : Room} {furniture : Pos}
    {shape : FurnitureShape} {wa wb : World}
    (hst : SameStatics wa wb) (hsub : wa.table ⊆ wb.table)
    (hres : (processProduction wa room furniture shape).table ⊆ wb.table) :
    (processProduction wb room furniture shape).table = wb.table := by
  unfold processProduction at hres ⊢
  dsimp only at hres ⊢
  by_cases h1b : (lookupStand wb.table
      ⟨furniture.x + shape.stand.x, furniture.y + shape.stand.y⟩).isSome
  · rw [if_pos h1b]
    rfl
  · rw [if_neg h1b]
    have h1a : ¬ (lookupStand wa.table
        ⟨furniture.x + shape.stand.x, furniture.y + shape.stand.y⟩).isSome
        = true := fun hs => h1b (lookupStand_isSome_mono hsub hs)
    rw [if_neg h1a] at hres
    cases hfa : wa.colonists.find? (fun c =>
        (lookupColonist wa.table c.id).isNone &&
        (match shape.status with
         | none => true
         | some st => c.status st)) with
    | none =>
      have hfb : wb.colonists.find? (fun c =>
          (lookupColonist wb.table c.id).isNone &&
          (match shape.status with
           | none => true
           | some st => c.status st)) = none := by
        refine colonistFind_none_transfer hst.2.2 ?_ hfa
        intro ca cb hid hhu hsl hpb
        simp only [Bool.and_eq_true] at hpb ⊢
        refine ⟨?_, ?_⟩
        · simp only [Option.isNone_iff_eq_none] at hpb ⊢
          rw [hid]
          exact lookupColonist_none_anti hsub hpb.1
        · cases hss : shape.status with
          | none => rfl
          | some st =>
            have h2 := hpb.2
            rw [hss] at h2
            cases st with
            | hungry => simpa [Colonist.status, hhu] using h2
            | sleepy => simpa [Colonist.status, hsl] using h2
      rw [hfb]
      rfl
    | some colonist =>
      rw [hfa] at hres
      cases hfb : wb.colonists.find? (fun c =>
          (lookupColonist wb.table c.id).isNone &&
          (match shape.status with
           | none => true
           | some st => c.status st)) with
      | none => rfl
      | some colonistB =>
        dsimp only
        cases hta : findOpenOutputTile wa room with
        | none =>
          rw [findOpenOutputTile_none_mono hst.2.1 hsub hta]
          rfl
        | some dest =>
          rw [hta] at hres
          exact absurd
            (lookupStand_isSome_of_mem
              (hres (List.mem_append_right _ (List.mem_singleton_self _)))
              rfl)
            h1b

theorem foldGrow {α : Type} (step : World → α → World)
    (Pgrow : ∀ w a, w.table ⊆ (step w a).table) :
    ∀ (l : List α) (w : World), w.table ⊆ (l.foldl step w).table
  | [], _ => fun _ h => h
  | a :: rest, w => fun _j hj =>
    foldGrow step Pgrow rest (step w a) (Pgrow w a hj)

theorem foldStatics {α : Type} (step : World → α → World)
    (Pstat : ∀ w a, SameStatics w (step w a)) :
    ∀ (l : List α) (w : World), SameStatics w (l.foldl step w)
  | [], _ => ⟨rfl, rfl, rfl⟩
  | a :: rest, w =>
    (Pstat w a).trans2 (foldStatics step Pstat rest (step w a))

/-- Fold idempotence: if re-running one step against a table that already
contains its products is a no-op, the same holds for the whole fold. -/
theorem foldIdem {α : Type} (step : World → α → World)
    (Pstat : ∀ w a, SameStatics w (step w a))
    (Pgrow : ∀ w a, w.table ⊆ (step w a).table)
    (Pidem : ∀ (a : α) (wa wb : World), SameStatics wa wb →
      wa.table ⊆ wb.table → (step wa a).table ⊆ wb.table →
      (step wb a).table = wb.table) :
    ∀ (l : List α) (wa wb : World), SameStatics wa wb →
      wa.table ⊆ wb.table → (l.foldl step wa).table ⊆ wb.table →
      (l.foldl step wb).table = wb.table := by
  intro l
  induction l with
  | nil => intro wa wb _ _ _; rfl
  | cons a rest ih =>
    intro wa wb hst hsub hres
    rw [List.foldl_cons] at hres ⊢
    have hmid : (step wa a).table ⊆ wb.table := fun j hj =>
      hres (foldGrow step Pgrow rest (step wa a) hj)
    have hstep : (step wb a).table = wb.table := Pidem a wa wb hst hsub hmid
    have hst2 : SameStatics (step wa a) (step wb a) :=
      ⟨(Pstat wa a).1.symm.trans (hst.1.trans (Pstat wb a).1),
       (Pstat wa a).2.1.symm.trans (hst.2.1.trans (Pstat wb a).2.1),
       (Pstat wa a).2.2.symm.trans (hst.2.2.trans (Pstat wb a).2.2)⟩
    have hsub2 : (step wa a).table ⊆ (step wb a).table := by
      rw [hstep]
      exact hmid
    have hres2 : (rest.foldl step (step wa a)).table ⊆ (step wb a).table := by
      rw [hstep]
      exact hres
    rw [ih (step wa a) (step wb a) hst2 hsub2 hres2, hstep]

theorem processFurniture_idem {fip : List Pos} {room : Room} {f : Pos}
    {wa wb : World} (hst : SameStatics wa wb) (hsub : wa.table ⊆ wb.table)
    (hres : (processFurniture fip wa room f).table ⊆ wb.table) :
    (processFurniture fip wb room f).table = wb.table := by
  unfold processFurniture at hres ⊢
  cases hshape : furnitureShapeOf room.type with
  | none => rfl
  | some shape =>
    rw [hshape] at hres
    dsimp only at hres ⊢
    have hitems : List.map (findItemOnTile wb)
        (shape.inputs.map fun input =>
          (⟨f.x + input.pos.x, f.y + input.pos.y⟩ : Pos)) =
        List.map (findItemOnTile wa)
          (shape.inputs.map fun input =>
            (⟨f.x + input.pos.x, f.y + input.pos.y⟩ : Pos)) :=
      List.map_congr_left fun p _ => (findItemOnTile_congr hst.2.1 p).symm
    rw [hitems]
    by_cases hall : ((shape.inputs.map fun input =>
        (⟨f.x + input.pos.x, f.y + input.pos.y⟩ : Pos)).map
          (findItemOnTile wa)).all (·.isSome) = true
    · rw [if_pos hall] at hres ⊢
      exact processProduction_idem hst hsub hres
    · rw [if_neg hall] at hres ⊢
      exact foldIdem
        (fun (w : World) (s : InputSlot × Pos × Option Item) =>
          processTransportSlot fip room f w s.1 s.2.1 s.2.2)
        (fun w s => processTransportSlot_statics fip room f w s.1 s.2.1 s.2.2)
        (fun w s => processTransportSlot_grow fip room f w s.1 s.2.1 s.2.2)
        (fun s wa' wb' h1 h2 h3 => processTransportSlot_idem h1 h2 h3)
        (shape.inputs.zip
          ((shape.inputs.map fun input =>
            (⟨f.x + input.pos.x, f.y + input.pos.y⟩ : Pos)).zip
            ((shape.inputs.map fun input =>
              (⟨f.x + input.pos.x, f.y + input.pos.y⟩ : Pos)).map
                (findItemOnTile wa))))
        wa wb hst hsub hres

theorem roomStep_statics (fip : List Pos) (w : World) (room : Room) :
    SameStatics w (roomStep fip w room) :=
  foldStatics _ (fun w f => processFurniture_statics fip w room f)
    room.furniture w

theorem roomStep_grow (fip : List Pos) (w : World) (room : Room) :
    w.table ⊆ (roomStep fip w room).table :=
  foldGrow _ (fun w f => processFurniture_grow fip w room f)
    room.furniture w

theorem roomStep_idem {fip : List Pos} {room : Room} {wa wb : World}
    (h1 : SameStatics wa wb) (h2 : wa.table ⊆ wb.table)
    (h3 : (roomStep fip wa room).table ⊆ wb.table) :
    (roomStep fip wb room).table = wb.table := by
  unfold roomStep at h3 ⊢
  exact foldIdem _
    (fun w f => processFurniture_statics fip w room f)
    (fun w f => processFurniture_grow fip w room f)
    (fun f wa' wb' ha hb hc => processFurniture_idem ha hb hc)
    room.furniture wa wb h1 h2 h3

/-- `jobsSimulate`, stated as the named room fold. -/
theorem jobsSimulate_eq (w : World) :
    jobsSimulate w =
      (stableSortBy (fun a b => decide (roomPriority b ≤ roomPriority a))
        w.rooms).foldl (roomStep (furnitureInputPositions w))
        { w with candidates := [] } := rfl

theorem jobsSimulate_statics (w : World) :
    SameStatics w (jobsSimulate w) := by
  rw [jobsSimulate_eq]
  exact SameStatics.trans2
    (⟨rfl, rfl, rfl⟩ : SameStatics w { w with candidates := [] })
    (foldStatics (roomStep (furnitureInputPositions w))
      (fun w' r => roomStep_statics (furnitureInputPositions w) w' r)
      (stableSortBy (fun a b => decide (roomPriority b ≤ roomPriority a))
        w.rooms)
      { w with candidates := [] })

theorem jobsSimulate_grow (w : World) :
    w.table ⊆ (jobsSimulate w).table := by
  rw [jobsSimulate_eq]
  exact foldGrow (roomStep (furnitureInputPositions w))
    (fun w' r => roomStep_grow (furnitureInputPositions w) w' r)
    (stableSortBy (fun a b => decide (roomPriority b ≤ roomPriority a))
      w.rooms)
    { w with candidates := [] }

theorem furnitureInputPositions_congr {wa wb : World}
    (h : wa.rooms = wb.rooms) :
    furnitureInputPositions wa = furnitureInputPositions wb := by
  unfold furnitureInputPositions
  rw [h]

/-- C2.  Scheduler idempotence: running `jobs.simulate` a second time
immediately after a first pass — same items, same agent positions and
statuses, same tick — creates no new jobs.  Every fixture that received a
job in the first pass is skipped by the stand-in-use (production) or
destination-reserved (transport) check against the live table, every skip
of the first pass recurs because all skip conditions are monotone in the
table, so the job table is unchanged by the second pass (only the
diagnostic candidates list and colonist paths may differ). -/
theorem jobsSimulate_idempotent (w : World) :
    (jobsSimulate (jobsSimulate w)).table = (jobsSimulate w).table := by
  have hstat1 := jobsSimulate_statics w
  have hrooms : (jobsSimulate w).rooms = w.rooms := hstat1.1.symm
  rw [jobsSimulate_eq (jobsSimulate w), furnitureInputPositions_congr hrooms]
  have hsort : stableSortBy
      (fun a b => decide (roomPriority b ≤ roomPriority a))
      (jobsSimulate w).rooms =
      stableSortBy (fun a b => decide (roomPriority b ≤ roomPriority a))
        w.rooms := by
    rw [hrooms]
  rw [hsort]
  have hres : (List.foldl (roomStep (furnitureInputPositions w))
      { w with candidates := [] }
      (stableSortBy (fun a b => decide (roomPriority b ≤ roomPriority a))
        w.rooms)).table ⊆
      ({ jobsSimulate w with candidates := [] } : World).table := by
    rw [← jobsSimulate_eq w]
    exact fun j hj => hj
  have hmain := foldIdem (roomStep (furnitureInputPositions w))
    (fun w' r => roomStep_statics _ w' r)
    (fun w' r => roomStep_grow _ w' r)
    (fun r wa wb h1 h2 h3 => roomStep_idem h1 h2 h3)
    (stableSortBy (fun a b => decide (roomPriority b ≤ roomPriority a))
      w.rooms)
    { w with candidates := [] } { jobsSimulate w with candidates := [] }
    ⟨hstat1.1, hstat1.2.1, hstat1.2.2⟩
    (jobsSimulate_grow w) hres
  exact hmain

--------------------------------------------------------------------------
-- C5: priority ordering of the scheduler (Scenario B)

/-- C5.  Two fixtures (field, priority 10; bed, priority 20), neither with
an assigned agent, and exactly one idle qualifying agent (sleepy):
the scheduler pass — which processes rooms in descending fixture priority —
assigns the agent to the priority-20 bed as a production job, and records
the priority-10 field in the diagnostic candidates list with
"No colonist available". -/
theorem scheduler_prefers_higher_priority :
    (jobsSimulate scenarioBWorld).table = [scenarioBJob] ∧
    (jobsSimulate scenarioBWorld).candidates =
      [⟨farmRoomB, ⟨11, 1⟩, none, "No colonist available"⟩] := by
  constructor <;> decide

--------------------------------------------------------------------------
-- C9: job creation abandons the colonist's leftover path

/-- C9.  Both `addTransportJob` and `addProductionJob` reset the assigned
colonist's pending path to empty as part of job creation, abandoning any
leftover walk (such as the vacate-the-stand walk after an outputless
production job). -/
theorem addJob_resets_path (w : World) (room : Room) (furniture : Pos)
    (cid iid : Nat) (stand dest : Pos) :
    (∀ c ∈ (addTransportJob w room furniture cid iid dest).colonists,
       c.id = cid → c.path = []) ∧
    (∀ c ∈ (addProductionJob w room furniture cid stand dest).colonists,
       c.id = cid → c.path = []) := by
  constructor <;>
  · intro c hc hid
    simp only [addTransportJob, addProductionJob, List.mem_map] at hc
    obtain ⟨c0, hc0, rfl⟩ := hc
    by_cases h : c0.id = cid
    · rw [if_pos h]
    · rw [if_neg h] at hid ⊢
      exact absurd hid h

/-- Witness for `addJob_resets_path`: creating a transport job for the
colonist of `pathWorld` (whose pending path is `[(9,9)]`) leaves it with
an empty path. -/
theorem addJob_resets_path_witness :
    (⟨1, ⟨5, 5⟩, [], false, false, none⟩ : Colonist).path = ([] : List Pos) :=
  (addJob_resets_path pathWorld farmRoomB ⟨11, 1⟩ 1 7 ⟨11, 1⟩ ⟨11, 0⟩).1
    ⟨1, ⟨5, 5⟩, [], false, false, none⟩ (by decide) (by decide)

--------------------------------------------------------------------------
-- C8: movement along a pending path is one tile and nothing else

/-- C8.  For an agent with a non-empty pending path, one executor step
pops the path's last element and moves the agent there, and changes
nothing else: the job table, the item registry, the diagnostic list and
the tick are untouched, and every colonist keeps its id, inventory and
status flags (only the moving agent's `pos` and `path` change) — whether
or not the agent has a job.  Movement takes strict precedence over all job
handling and consumes exactly one tile per step. -/
theorem colonistSimulate_moves_along_path (w : World) (cid : Nat)
    (c : Colonist) (p : Pos) (hc : getColonist w cid = some c)
    (hlast : c.path.getLast? = some p) :
    ∃ w', colonistSimulate w cid = .ok w' ∧
      w'.table = w.table ∧ w'.items = w.items ∧
      w'.candidates = w.candidates ∧ w'.tickId = w.tickId ∧
      w'.walkable = w.walkable ∧ w'.rooms = w.rooms ∧
      w'.colonists = w.colonists.map (fun c' =>
        if c'.id = cid then
          { c' with pos := p, path := c'.path.dropLast }
        else c') := by
  refine ⟨updateColonist w cid
      (fun c' => { c' with pos := p, path := c'.path.dropLast }),
    ?_, rfl, rfl, rfl, rfl, rfl, rfl, rfl⟩
  unfold colonistSimulate
  rw [hc]
  simp only
  rw [hlast]

/-- Witness for `colonistSimulate_moves_along_path` on `walkWorld`, whose
colonist 1 has both a job and the pending path `[(2,2),(1,1)]`. -/
theorem colonistSimulate_moves_along_path_witness :
    ∃ w', colonistSimulate walkWorld 1 = .ok w' ∧
      w'.table = walkWorld.table ∧ w'.items = walkWorld.items ∧
      w'.candidates = walkWorld.candidates ∧ w'.tickId = walkWorld.tickId ∧
      w'.walkable = walkWorld.walkable ∧ w'.rooms = walkWorld.rooms ∧
      w'.colonists = walkWorld.colonists.map (fun c' =>
        if c'.id = 1 then
          { c' with pos := (⟨1, 1⟩ : Pos), path := c'.path.dropLast }
        else c') :=
  colonistSimulate_moves_along_path walkWorld 1
    ⟨1, ⟨1, 2⟩, [⟨2, 2⟩, ⟨1, 1⟩], false, false, none⟩ ⟨1, 1⟩
    (by rfl) (by rfl)

--------------------------------------------------------------------------
-- C4: pathfinding on a fully open grid
--
-- Plan: breadth-first search explores the grid in fringes of exactly the
-- tiles at each Manhattan distance from the start (on an open rectangle
-- the graph distance IS the Manhattan distance, because one can always
-- step one axis toward a target without leaving the rectangle).  The
-- `came_from` chain then decreases the distance by one per link, so the
-- reconstructed path has exactly `manhattan start goal` tiles.

theorem manhattan_self (p : Pos) : manhattan p p = 0 := by
  unfold manhattan
  omega

theorem manhattan_eq_zero {a b : Pos} (h : manhattan a b = 0) : a = b := by
  unfold manhattan at h
  have hx : a.x = b.x := by omega
  have hy : a.y = b.y := by omega
  cases a
  cases b
  simp_all

theorem mem_openGrid {W H : Nat} {p : Pos} :
    p ∈ openGrid W H ↔ inRect W H p := by
  unfold openGrid inRect
  rw [List.mem_flatMap]
  constructor
  · rintro ⟨i, hi, hp⟩
    rw [List.mem_range] at hi
    obtain ⟨j, hj, rfl⟩ := List.mem_map.mp hp
    rw [List.mem_range] at hj
    refine ⟨by simp, by simp; omega, by simp, by simp; omega⟩
  · rintro ⟨h1, h2, h3, h4⟩
    refine ⟨p.x.toNat, ?_, List.mem_map.mpr ⟨p.y.toNat, ?_, ?_⟩⟩
    · rw [List.mem_range]; omega
    · rw [List.mem_range]; omega
    · cases p with
      | mk px py =>
        simp only [Pos.mk.injEq]
        dsimp only at h1 h2 h3 h4
        constructor <;> omega

theorem openGrid_length (W H : Nat) : (openGrid W H).length = W * H := by
  unfold openGrid
  rw [List.length_flatMap]
  have h : ∀ l : List Nat, (List.map (List.length ∘ fun (i : Nat) =>
      (List.range H).map fun (j : Nat) => (⟨(i : Int), (j : Int)⟩ : Pos))
        l).sum = l.length * H := by
    intro l
    induction l with
    | nil => simp
    | cons a t ih =>
      rw [List.map_cons, List.sum_cons, ih]
      simp only [Function.comp, List.length_map, List.length_range,
        List.length_cons]
      rw [Nat.succ_mul]
      omega
  rw [h, List.length_range]

/-- Every tile other than the start has an in-rectangle neighbor one step
closer to the start: move one axis toward the start. -/
theorem step_toward {W H : Nat} {start p : Pos} (hs : inRect W H start)
    (hp : inRect W H p) (hne : manhattan start p ≠ 0) :
    ∃ q, adjacent q p ∧ inRect W H q ∧
      manhattan start q + 1 = manhattan start p := by
  unfold inRect at hs hp ⊢
  unfold manhattan at hne ⊢
  unfold adjacent
  by_cases hx : p.x = start.x
  · -- x agrees, move y toward start
    by_cases hy : start.y < p.y
    · exact ⟨⟨p.x, p.y - 1⟩, by dsimp only; omega, by dsimp only; omega,
        by dsimp only; omega⟩
    · exact ⟨⟨p.x, p.y + 1⟩, by dsimp only; omega, by dsimp only; omega,
        by dsimp only; omega⟩
  · by_cases hxlt : start.x < p.x
    · exact ⟨⟨p.x - 1, p.y⟩, by dsimp only; omega, by dsimp only; omega,
        by dsimp only; omega⟩
    · exact ⟨⟨p.x + 1, p.y⟩, by dsimp only; omega, by dsimp only; omega,
        by dsimp only; omega⟩

/-- Every distance up to `manhattan start goal` is realised by a tile of
the rectangle (walk along x first, then along y). -/
theorem exists_at_dist {W H : Nat} {start goal : Pos} (hs : inRect W H start)
    (hg : inRect W H goal) {k : Nat} (hk : k ≤ manhattan start goal) :
    ∃ p, inRect W H p ∧ manhattan start p = k := by
  unfold inRect at hs hg ⊢
  unfold manhattan at hk ⊢
  by_cases hx : k ≤ (start.x - goal.x).natAbs
  · by_cases hdir : start.x ≤ goal.x
    · exact ⟨⟨start.x + k, start.y⟩, by dsimp only; omega,
        by dsimp only; omega⟩
    · exact ⟨⟨start.x - k, start.y⟩, by dsimp only; omega,
        by dsimp only; omega⟩
  · by_cases hdir : start.y ≤ goal.y
    · exact ⟨⟨goal.x, start.y + ((k : Int) - (start.x - goal.x).natAbs)⟩,
        by dsimp only; omega, by dsimp only; omega⟩
    · exact ⟨⟨goal.x, start.y - ((k : Int) - (start.x - goal.x).natAbs)⟩,
        by dsimp only; omega, by dsimp only; omega⟩

/-- One 4-directional step changes the Manhattan distance to a fixed
origin by at most one. -/
theorem manhattan_adjacent_le {start a b : Pos} (h : adjacent a b) :
    manhattan start b ≤ manhattan start a + 1 := by
  unfold adjacent at h
  unfold manhattan
  omega

theorem adjacent_unit {pos : Pos} {d : Int × Int}
    (hd : d.1.natAbs + d.2.natAbs = 1) :
    adjacent pos ⟨pos.x + d.1, pos.y + d.2⟩ := by
  unfold adjacent
  dsimp only
  omega

theorem adjacent_iff_dir {pos n : Pos} :
    adjacent pos n ↔
      ∃ d ∈ DIRS1, n = ⟨pos.x + d.1, pos.y + d.2⟩ := by
  constructor
  · intro h
    unfold adjacent at h
    have hd : (n.x = pos.x - 1 ∧ n.y = pos.y) ∨
        (n.x = pos.x ∧ n.y = pos.y + 1) ∨
        (n.x = pos.x + 1 ∧ n.y = pos.y) ∨
        (n.x = pos.x ∧ n.y = pos.y - 1) := by omega
    rcases hd with ⟨h1, h2⟩ | ⟨h1, h2⟩ | ⟨h1, h2⟩ | ⟨h1, h2⟩
    · refine ⟨(-1, 0), by decide, ?_⟩
      cases n with
      | mk nx ny =>
        dsimp only at h1 h2
        simp only [Pos.mk.injEq]
        constructor <;> omega
    · refine ⟨(0, 1), by decide, ?_⟩
      cases n with
      | mk nx ny =>
        dsimp only at h1 h2
        simp only [Pos.mk.injEq]
        constructor <;> omega
    · refine ⟨(1, 0), by decide, ?_⟩
      cases n with
      | mk nx ny =>
        dsimp only at h1 h2
        simp only [Pos.mk.injEq]
        constructor <;> omega
    · refine ⟨(0, -1), by decide, ?_⟩
      cases n with
      | mk nx ny =>
        dsimp only at h1 h2
        simp only [Pos.mk.injEq]
        constructor <;> omega
  · rintro ⟨d, hd, rfl⟩
    have hunit : d.1.natAbs + d.2.natAbs = 1 := by
      fin_cases hd <;> decide
    exact adjacent_unit hunit

theorem DIRS1_unit : ∀ d ∈ DIRS1, d.1.natAbs + d.2.natAbs = 1 := by
  decide

theorem DIRS2_unit : ∀ d ∈ DIRS2, d.1.natAbs + d.2.natAbs = 1 := by
  decide

theorem mem_DIRS2_of_mem_DIRS1 {d : Int × Int} (h : d ∈ DIRS1) :
    d ∈ DIRS2 := by
  unfold DIRS2
  rw [List.mem_reverse]
  exact h

/-- One direction probe preserves the invariant, extends the fringe
characterisation, only grows the cost map, and records the probed
neighbor when it lies in the rectangle at the next distance. -/
theorem expandDir_spec {W H : Nat} {start : Pos} {k : Nat} {st : BfsState}
    {next : List Pos} {pos : Pos} {d : Int × Int}
    (hinv : MidInv W H start k st) (hpos : inRect W H pos)
    (hk : manhattan start pos = k) (hd : d.1.natAbs + d.2.natAbs = 1)
    (hnext : ∀ p, p ∈ next ↔ st.cost p = some (k + 1)) :
    MidInv W H start k
      (expandDir (openGrid W H) k pos (st, next) d).1 ∧
    (∀ p, p ∈ (expandDir (openGrid W H) k pos (st, next) d).2 ↔
      (expandDir (openGrid W H) k pos (st, next) d).1.cost p = some (k + 1)) ∧
    (∀ p c, st.cost p = some c →
      (expandDir (openGrid W H) k pos (st, next) d).1.cost p = some c) ∧
    (inRect W H ⟨pos.x + d.1, pos.y + d.2⟩ →
      manhattan start ⟨pos.x + d.1, pos.y + d.2⟩ = k + 1 →
      (expandDir (openGrid W H) k pos (st, next) d).1.cost
        ⟨pos.x + d.1, pos.y + d.2⟩ = some (k + 1)) := by
  unfold expandDir
  dsimp only
  by_cases hcond : st.cost ⟨pos.x + d.1, pos.y + d.2⟩ = none ∧
      (⟨pos.x + d.1, pos.y + d.2⟩ : Pos) ∈ openGrid W H
  · rw [if_pos hcond]
    obtain ⟨hnone, hwalk⟩ := hcond
    have hadj : adjacent pos ⟨pos.x + d.1, pos.y + d.2⟩ := adjacent_unit hd
    have hnbRect : inRect W H ⟨pos.x + d.1, pos.y + d.2⟩ :=
      mem_openGrid.mp hwalk
    have hnbMan : manhattan start ⟨pos.x + d.1, pos.y + d.2⟩ = k + 1 := by
      have hle : manhattan start ⟨pos.x + d.1, pos.y + d.2⟩ ≤ k + 1 := by
        have := @manhattan_adjacent_le start _ _ hadj
        omega
      rcases Nat.lt_or_ge (manhattan start ⟨pos.x + d.1, pos.y + d.2⟩)
          (k + 1) with hlt | hge
      · exfalso
        have := hinv.2.1 ⟨pos.x + d.1, pos.y + d.2⟩ hnbRect (by omega)
        rw [hnone] at this
        cases this
      · omega
    have hStartNe : start ≠ (⟨pos.x + d.1, pos.y + d.2⟩ : Pos) := by
      intro he
      rw [← he] at hnone
      rw [hinv.2.2.2.2] at hnone
      cases hnone
    have hPosNe : pos ≠ (⟨pos.x + d.1, pos.y + d.2⟩ : Pos) := by
      intro he
      have := hinv.2.1 pos hpos (by omega)
      rw [he, hnone] at this
      cases this
    have hcp : st.cost pos = some (manhattan start pos) :=
      hinv.2.1 pos hpos (by omega)
    refine ⟨⟨?_, ?_, ?_, ?_, ?_⟩, ?_, ?_, ?_⟩
    · intro p c hc
      dsimp only at hc
      by_cases hp : p = ⟨pos.x + d.1, pos.y + d.2⟩
      · rw [if_pos hp] at hc
        injection hc with hc
        refine ⟨by rw [hp]; exact hnbRect, by rw [hp, hnbMan, ← hc], by omega⟩
      · rw [if_neg hp] at hc
        exact hinv.1 p c hc
    · intro p hrect hman
      dsimp only
      by_cases hp : p = ⟨pos.x + d.1, pos.y + d.2⟩
      · exfalso
        rw [hp, hnbMan] at hman
        omega
      · rw [if_neg hp]
        exact hinv.2.1 p hrect hman
    · intro p q hq
      dsimp only at hq ⊢
      by_cases hp : p = ⟨pos.x + d.1, pos.y + d.2⟩
      · rw [if_pos hp] at hq
        injection hq with hq
        subst hq
        refine ⟨by rw [hp]; exact hadj, by rw [hp, hnbMan, hk], ?_⟩
        rw [if_neg hPosNe, hcp]
        simp
      · rw [if_neg hp] at hq
        obtain ⟨ha, hm, hcq⟩ := hinv.2.2.1 p q hq
        refine ⟨ha, hm, ?_⟩
        by_cases hqq : q = ⟨pos.x + d.1, pos.y + d.2⟩
        · rw [if_pos hqq]
          simp
        · rw [if_neg hqq]
          exact hcq
    · intro p hps hpc
      dsimp only at hpc ⊢
      by_cases hp : p = ⟨pos.x + d.1, pos.y + d.2⟩
      · rw [if_pos hp]
        simp
      · rw [if_neg hp] at hpc ⊢
        exact hinv.2.2.2.1 p hps hpc
    · dsimp only
      rw [if_neg hStartNe]
      exact hinv.2.2.2.2
    · intro p
      dsimp only
      rw [List.mem_append, List.mem_singleton]
      by_cases hp : p = ⟨pos.x + d.1, pos.y + d.2⟩
      · rw [if_pos hp]
        simp [hp]
      · rw [if_neg hp]
        simp only [hp, or_false]
        exact hnext p
    · intro p c hc
      dsimp only
      by_cases hp : p = ⟨pos.x + d.1, pos.y + d.2⟩
      · exfalso
        rw [hp, hnone] at hc
        cases hc
      · rw [if_neg hp]
        exact hc
    · intro _ _
      dsimp only
      rw [if_pos rfl]
  · rw [if_neg hcond]
    refine ⟨hinv, hnext, fun p c hc => hc, ?_⟩
    intro hrect hman
    have hwalk : (⟨pos.x + d.1, pos.y + d.2⟩ : Pos) ∈ openGrid W H :=
      mem_openGrid.mpr hrect
    cases hcost : st.cost ⟨pos.x + d.1, pos.y + d.2⟩ with
    | none => exact absurd ⟨hcost, hwalk⟩ hcond
    | some c =>
      have hcm := (hinv.1 _ c hcost).2.1
      rw [hcm, hman]

/-- Folding direction probes over any list of unit directions. -/
theorem expandDirs_spec {W H : Nat} {start : Pos} {k : Nat} {pos : Pos}
    (hpos : inRect W H pos) (hk : manhattan start pos = k) :
    ∀ (dirs : List (Int × Int)),
      (∀ d ∈ dirs, d.1.natAbs + d.2.natAbs = 1) →
      ∀ (st : BfsState) (next : List Pos),
        MidInv W H start k st →
        (∀ p, p ∈ next ↔ st.cost p = some (k + 1)) →
        MidInv W H start k
          (dirs.foldl (expandDir (openGrid W H) k pos) (st, next)).1 ∧
        (∀ p, p ∈ (dirs.foldl (expandDir (openGrid W H) k pos) (st, next)).2 ↔
          (dirs.foldl (expandDir (openGrid W H) k pos) (st, next)).1.cost p =
            some (k + 1)) ∧
        (∀ p c, st.cost p = some c →
          (dirs.foldl (expandDir (openGrid W H) k pos) (st, next)).1.cost p =
            some c) ∧
        (∀ d ∈ dirs, inRect W H ⟨pos.x + d.1, pos.y + d.2⟩ →
          manhattan start ⟨pos.x + d.1, pos.y + d.2⟩ = k + 1 →
          (dirs.foldl (expandDir (openGrid W H) k pos) (st, next)).1.cost
            ⟨pos.x + d.1, pos.y + d.2⟩ = some (k + 1)) := by
  intro dirs
  induction dirs with
  | nil =>
    intro _ st next hinv hnext
    exact ⟨hinv, hnext, fun p c hc => hc, fun d hd => absurd hd (by simp)⟩
  | cons d rest ih =>
    intro hunit st next hinv hnext
    have hstep := expandDir_spec hinv hpos hk
      (hunit d (List.mem_cons_self d rest)) hnext
    obtain ⟨hinv1, hchar1, hmono1, hcov1⟩ := hstep
    have hrest := ih (fun e he => hunit e (List.mem_cons_of_mem d he))
      (expandDir (openGrid W H) k pos (st, next) d).1
      (expandDir (openGrid W H) k pos (st, next) d).2 hinv1 hchar1
    obtain ⟨hinv2, hchar2, hmono2, hcov2⟩ := hrest
    rw [List.foldl_cons]
    refine ⟨hinv2, hchar2, fun p c hc => hmono2 p c (hmono1 p c hc), ?_⟩
    intro e he hrect hman
    rcases List.mem_cons.mp he with rfl | he
    · exact hmono2 _ _ (hcov1 hrect hman)
    · exact hcov2 e he hrect hman

/-- expandPos preserves the invariant, extends the fringe characterisation,
only grows the cost map, and records every in-rectangle neighbor of `pos`
at distance `k+1`. -/
theorem expandPos_spec {W H : Nat} {start : Pos} {k : Nat} {pos : Pos}
    {st : BfsState} {next : List Pos}
    (hpos : inRect W H pos) (hk : manhattan start pos = k)
    (hinv : MidInv W H start k st)
    (hnext : ∀ p, p ∈ next ↔ st.cost p = some (k + 1)) :
    MidInv W H start k (expandPos (openGrid W H) k pos (st, next)).1 ∧
    (∀ p, p ∈ (expandPos (openGrid W H) k pos (st, next)).2 ↔
      (expandPos (openGrid W H) k pos (st, next)).1.cost p = some (k + 1)) ∧
    (∀ p c, st.cost p = some c →
      (expandPos (openGrid W H) k pos (st, next)).1.cost p = some c) ∧
    (∀ n, adjacent pos n → inRect W H n →
      manhattan start n = k + 1 →
      (expandPos (openGrid W H) k pos (st, next)).1.cost n = some (k + 1)) := by
  unfold expandPos
  dsimp only
  by_cases hpar : (pos.x + pos.y) % 2 = 0
  · rw [if_pos hpar]
    have h := expandDirs_spec hpos hk DIRS1 DIRS1_unit st next hinv hnext
    refine ⟨h.1, h.2.1, h.2.2.1, ?_⟩
    intro n hadj hrect hman
    obtain ⟨d, hd, rfl⟩ := adjacent_iff_dir.mp hadj
    exact h.2.2.2 d hd hrect hman
  · rw [if_neg hpar]
    have h := expandDirs_spec hpos hk DIRS2 DIRS2_unit st next hinv hnext
    refine ⟨h.1, h.2.1, h.2.2.1, ?_⟩
    intro n hadj hrect hman
    obtain ⟨d, hd, rfl⟩ := adjacent_iff_dir.mp hadj
    exact h.2.2.2 d (mem_DIRS2_of_mem_DIRS1 hd) hrect hman

/-- Scanning a (suffix of a) depth-`k` fringe: either the goal is popped
with the invariant and its recorded cost intact, or the scan finishes with
the invariant, the exact next-fringe characterisation, cost monotonicity,
and all next-distance neighbors of scanned tiles recorded. -/
theorem scanFringe_spec {W H : Nat} {start goal : Pos} {k : Nat} :
    ∀ (F : List Pos) (st : BfsState) (next : List Pos),
      MidInv W H start k st →
      (∀ p ∈ F, st.cost p = some k) →
      (∀ p, p ∈ next ↔ st.cost p = some (k + 1)) →
      (match scanFringe (openGrid W H) goal k F (st, next) with
       | .inl stF => goal ∈ F ∧ MidInv W H start k stF ∧
           stF.cost goal = some k
       | .inr (st', next') =>
           goal ∉ F ∧ MidInv W H start k st' ∧
           (∀ p, p ∈ next' ↔ st'.cost p = some (k + 1)) ∧
           (∀ p c, st.cost p = some c → st'.cost p = some c) ∧
           (∀ q ∈ F, ∀ n, adjacent q n → inRect W H n →
             manhattan start n = k + 1 → st'.cost n = some (k + 1))) := by
  intro F
  induction F with
  | nil =>
    intro st next hinv hF hnext
    simp only [scanFringe]
    exact ⟨by simp, hinv, hnext, fun p c hc => hc, by simp⟩
  | cons pos rest ih =>
    intro st next hinv hF hnext
    simp only [scanFringe]
    by_cases hpg : pos = goal
    · rw [if_pos hpg]
      dsimp only
      exact ⟨by rw [← hpg]; exact List.mem_cons_self pos rest, hinv,
        by rw [← hpg]; exact hF pos (List.mem_cons_self pos rest)⟩
    · rw [if_neg hpg]
      have hposc : st.cost pos = some k := hF pos (List.mem_cons_self pos rest)
      have hstats := hinv.1 pos k hposc
      have hspec := expandPos_spec hstats.1
        hstats.2.1.symm hinv hnext
      cases hE : expandPos (openGrid W H) k pos (st, next) with
      | mk st1 next1 =>
        rw [hE] at hspec
        dsimp only at hspec
        obtain ⟨hinv1, hchar1, hmono1, hcov1⟩ := hspec
        have hF1 : ∀ p ∈ rest, st1.cost p = some k := fun p hp =>
          hmono1 p k (hF p (List.mem_cons_of_mem pos hp))
        have ihr := ih st1 next1 hinv1 hF1 hchar1
        cases hS : scanFringe (openGrid W H) goal k rest (st1, next1) with
        | inl stF =>
          rw [hS] at ihr
          dsimp only at ihr ⊢
          exact ⟨List.mem_cons_of_mem pos ihr.1, ihr.2.1, ihr.2.2⟩
        | inr pr =>
          cases pr with
          | mk st2 next2 =>
            rw [hS] at ihr
            dsimp only at ihr ⊢
            obtain ⟨hng, hinv2, hchar2, hmono2, hcov2⟩ := ihr
            refine ⟨?_, hinv2, hchar2,
              fun p c hc => hmono2 p c (hmono1 p c hc), ?_⟩
            · intro hmem
              rcases List.mem_cons.mp hmem with he | hmem
              · exact hpg he.symm
              · exact hng hmem
            · intro q hq n hadj hrect hman
              rcases List.mem_cons.mp hq with rfl | hq
              · exact hmono2 n (k + 1) (hcov1 n hadj hrect hman)
              · exact hcov2 q hq n hadj hrect hman

/-- The mid-scan invariant already contains everything reconstruction
needs. -/
theorem chainOk_of_midInv {W H : Nat} {start : Pos} {k : Nat} {st : BfsState}
    (hinv : MidInv W H start k st) : ChainOk start st := by
  intro p hps hpc
  cases hc : st.came p with
  | none => exact absurd hc (hinv.2.2.2.1 p hps hpc)
  | some q =>
    obtain ⟨hadj, hman, hqc⟩ := hinv.2.2.1 p q hc
    exact ⟨q, rfl, hadj, hman.symm, hqc⟩

/-- The fringe loop on a fully open grid: started at level `k` with the
invariant, exact level-`k` fringe, and all recorded costs at most `k`, it
reaches the goal in `manhattan start goal - k` further levels and returns
maps ready for reconstruction. -/
theorem bfsLoop_spec {W H : Nat} {start goal : Pos}
    (hs : inRect W H start) (hg : inRect W H goal) :
    ∀ (n k : Nat) (st : BfsState) (F : List Pos) (fuel : Nat),
      k + n = manhattan start goal →
      n + 1 ≤ fuel →
      MidInv W H start k st →
      (∀ p c, st.cost p = some c → c ≤ k) →
      (∀ p, p ∈ F ↔ inRect W H p ∧ manhattan start p = k) →
      ∃ stF, bfsLoop (openGrid W H) start goal fuel k st F = .ok stF ∧
        ChainOk start stF ∧ stF.cost goal ≠ none := by
  intro n
  induction n with
  | zero =>
    intro k st F fuel hkn hfuel hinv hbound hchar
    have hk : manhattan start goal = k := by omega
    have hgF : goal ∈ F := (hchar goal).mpr ⟨hg, hk⟩
    cases F with
    | nil => cases hgF
    | cons hd tl =>
      cases fuel with
      | zero => omega
      | succ f =>
        have hF : ∀ p ∈ hd :: tl, st.cost p = some k := by
          intro p hp
          have h := (hchar p).mp hp
          have h2 := hinv.2.1 p h.1 (le_of_eq h.2)
          rw [h2, h.2]
        have hnext0 : ∀ p : Pos,
            p ∈ ([] : List Pos) ↔ st.cost p = some (k + 1) := by
          intro p
          constructor
          · intro h
            cases h
          · intro h
            exact absurd (hbound p (k + 1) h) (by omega)
        have hscan := @scanFringe_spec W H start goal k (hd :: tl) st []
          hinv hF hnext0
        simp only [bfsLoop]
        cases hS : scanFringe (openGrid W H) goal k (hd :: tl) (st, []) with
        | inl stF =>
          rw [hS] at hscan
          dsimp only at hscan
          refine ⟨stF, rfl, chainOk_of_midInv hscan.2.1, ?_⟩
          rw [hscan.2.2]
          simp
        | inr pr =>
          cases pr with
          | mk st2 next2 =>
            rw [hS] at hscan
            dsimp only at hscan
            exact absurd hgF hscan.1
  | succ n ihn =>
    intro k st F fuel hkn hfuel hinv hbound hchar
    have hgF : goal ∉ F := by
      intro h
      have := ((hchar goal).mp h).2
      omega
    obtain ⟨p0, hp0r, hp0m⟩ := @exists_at_dist W H start goal hs hg k
      (by omega)
    have hp0F : p0 ∈ F := (hchar p0).mpr ⟨hp0r, hp0m⟩
    cases F with
    | nil => cases hp0F
    | cons hd tl =>
      cases fuel with
      | zero => omega
      | succ f =>
        have hF : ∀ p ∈ hd :: tl, st.cost p = some k := by
          intro p hp
          have h := (hchar p).mp hp
          have h2 := hinv.2.1 p h.1 (le_of_eq h.2)
          rw [h2, h.2]
        have hnext0 : ∀ p : Pos,
            p ∈ ([] : List Pos) ↔ st.cost p = some (k + 1) := by
          intro p
          constructor
          · intro h
            cases h
          · intro h
            exact absurd (hbound p (k + 1) h) (by omega)
        have hscan := @scanFringe_spec W H start goal k (hd :: tl) st []
          hinv hF hnext0
        simp only [bfsLoop]
        cases hS : scanFringe (openGrid W H) goal k (hd :: tl) (st, []) with
        | inl stF =>
          rw [hS] at hscan
          dsimp only at hscan
          exact absurd hscan.1 hgF
        | inr pr =>
          cases pr with
          | mk st2 next2 =>
            rw [hS] at hscan
            dsimp only at hscan
            obtain ⟨_, hinv2, hchar2, hmono2, hcov2⟩ := hscan
            have hcomplete : ∀ p, inRect W H p →
                manhattan start p = k + 1 → st2.cost p = some (k + 1) := by
              intro p hpr hpm
              obtain ⟨q, hqadj, hqr, hqm⟩ := step_toward hs hpr (by omega)
              have hqF : q ∈ hd :: tl := (hchar q).mpr ⟨hqr, by omega⟩
              exact hcov2 q hqF p hqadj hpr hpm
            have hinv3 : MidInv W H start (k + 1) st2 := by
              refine ⟨?_, ?_, hinv2.2.2.1, hinv2.2.2.2.1, hinv2.2.2.2.2⟩
              · intro p c hc
                have h := hinv2.1 p c hc
                exact ⟨h.1, h.2.1, by omega⟩
              · intro p hpr hpm
                rcases Nat.lt_or_ge (manhattan start p) (k + 1) with hlt | hge
                · exact hinv2.2.1 p hpr (by omega)
                · have hpm1 : manhattan start p = k + 1 := by omega
                  rw [hpm1]
                  exact hcomplete p hpr hpm1
            have hbound3 : ∀ p c, st2.cost p = some c → c ≤ k + 1 :=
              fun p c hc => (hinv2.1 p c hc).2.2
            have hchar3 : ∀ p, p ∈ next2 ↔ inRect W H p ∧
                manhattan start p = k + 1 := by
              intro p
              rw [hchar2 p]
              constructor
              · intro h
                have hh := hinv2.1 p (k + 1) h
                exact ⟨hh.1, hh.2.1.symm⟩
              · intro h
                exact hcomplete p h.1 h.2
            exact ihn (k + 1) st2 next2 f (by omega) (by omega)
              hinv3 hbound3 hchar3

/-- Fuel arithmetic: the walkable-set-sized fuel covers every distance
inside the rectangle. -/
theorem manhattan_fuel_bound {W H : Nat} {start goal : Pos}
    (hs : inRect W H start) (hg : inRect W H goal) :
    manhattan start goal + 1 ≤ W * H + 2 := by
  have hW : 1 ≤ W := by
    have h := hs.2.1
    have h0 := hs.1
    omega
  have hH : 1 ≤ H := by
    have h := hs.2.2.2
    have h0 := hs.2.2.1
    omega
  have h1 : manhattan start goal + 1 ≤ W + H := by
    unfold manhattan
    unfold inRect at hs hg
    omega
  obtain ⟨a, rfl⟩ : ∃ a, W = a + 1 := ⟨W - 1, by omega⟩
  obtain ⟨b, rfl⟩ : ∃ b, H = b + 1 := ⟨H - 1, by omega⟩
  have h2 : (a + 1) * (b + 1) = a * b + a + b + 1 := by ring
  omega

/-- breadthFirstSearch on a fully open grid always succeeds, with maps
ready for reconstruction. -/
theorem breadthFirstSearch_open {W H : Nat} {start goal : Pos}
    (hs : inRect W H start) (hg : inRect W H goal) :
    ∃ stF, breadthFirstSearch (openGrid W H) start goal = .ok stF ∧
      ChainOk start stF ∧ stF.cost goal ≠ none := by
  unfold breadthFirstSearch
  have hinv0 : MidInv W H start 0
      ⟨fun p => if p = start then some 0 else none, fun _ => none⟩ := by
    refine ⟨?_, ?_, ?_, ?_, ?_⟩
    · intro p c hc
      dsimp only at hc
      by_cases hp : p = start
      · rw [if_pos hp] at hc
        injection hc with hc
        refine ⟨hp ▸ hs, ?_, by omega⟩
        rw [hp, manhattan_self, ← hc]
      · rw [if_neg hp] at hc
        cases hc
    · intro p hpr hpm
      have hp : p = start := by
        have h0 : manhattan start p = 0 := by omega
        exact (manhattan_eq_zero h0).symm
      dsimp only
      rw [if_pos hp, hp, manhattan_self]
    · intro p q hq
      cases hq
    · intro p hps hpc
      dsimp only at hpc
      rw [if_neg hps] at hpc
      exact absurd rfl hpc
    · dsimp only
      rw [if_pos rfl]
  have hbound0 : ∀ p c,
      (fun p => if p = start then some 0 else none : Pos → Option Nat) p =
        some c → c ≤ 0 := by
    intro p c hc
    dsimp only at hc
    by_cases hp : p = start
    · rw [if_pos hp] at hc
      injection hc with hc
      omega
    · rw [if_neg hp] at hc
      cases hc
  have hchar0 : ∀ p, p ∈ [start] ↔
      inRect W H p ∧ manhattan start p = 0 := by
    intro p
    rw [List.mem_singleton]
    constructor
    · intro h
      rw [h]
      exact ⟨hs, manhattan_self start⟩
    · intro h
      exact (manhattan_eq_zero h.2).symm
  have hfuel : manhattan start goal + 1 ≤ (openGrid W H).length + 2 := by
    rw [openGrid_length]
    have := manhattan_fuel_bound hs hg
    omega
  exact bfsLoop_spec hs hg (manhattan start goal) 0 _ [start] _
    (by omega) hfuel hinv0 hbound0 hchar0

/-- The reconstruction loop on a chain-complete search state: starting at
a recorded tile at distance `m`, it returns the accumulator extended by a
length-`m` suffix that (read in reverse) steps from beside the start to
the current tile, never revisiting the start. -/
theorem reconstructLoop_spec {start : Pos} {st : BfsState}
    (hchain : ChainOk start st) :
    ∀ (m : Nat) (current : Pos), manhattan start current = m →
      st.cost current ≠ none →
      ∀ (fuel : Nat), m + 1 ≤ fuel → ∀ (acc : List Pos),
        ∃ tail, reconstructLoop st.came start fuel current acc =
            .ok (acc ++ tail) ∧
          tail.length = m ∧
          List.Chain' adjacent (start :: tail.reverse) ∧
          (m ≠ 0 → tail.head? = some current) ∧
          start ∉ tail := by
  intro m
  induction m with
  | zero =>
    intro current hm _ fuel hfuel acc
    have hcur : current = start := (manhattan_eq_zero hm).symm
    cases fuel with
    | zero => omega
    | succ f =>
      refine ⟨[], ?_, rfl, ?_, fun h => absurd rfl h, by simp⟩
      · simp only [reconstructLoop]
        rw [if_pos hcur, List.append_nil]
      · simp
  | succ m ihm =>
    intro current hm hcost fuel hfuel acc
    have hne : current ≠ start := by
      intro he
      rw [he, manhattan_self] at hm
      omega
    obtain ⟨q, hcame, hadj, hqm, hqc⟩ := hchain current hne hcost
    have hqman : manhattan start q = m := by omega
    cases fuel with
    | zero => omega
    | succ f =>
      obtain ⟨tail, hrun, hlen, hch, hhead, hnot⟩ :=
        ihm q hqman hqc f (by omega) (acc ++ [current])
      refine ⟨current :: tail, ?_, by simp [hlen], ?_, fun _ => rfl, ?_⟩
      · simp only [reconstructLoop]
        rw [if_neg hne, hcame]
        dsimp only
        rw [hrun, List.append_assoc, List.singleton_append]
      · have hgoal : start :: (current :: tail).reverse =
            (start :: tail.reverse) ++ [current] := by
          rw [List.reverse_cons, ← List.cons_append]
        rw [hgoal, List.chain'_append]
        refine ⟨hch, List.chain'_singleton current, ?_⟩
        intro x hx y hy
        have hy' : y = current := by
          simp only [List.head?_cons, Option.mem_def, Option.some.injEq] at hy
          exact hy.symm
        subst hy'
        cases htl : tail with
        | nil =>
          rw [htl] at hx
          simp only [List.reverse_nil, List.getLast?_singleton,
            Option.mem_def, Option.some.injEq] at hx
          have hq0 : q = start := by
            rw [htl] at hlen
            have h0 : manhattan start q = 0 := by
              simp at hlen
              omega
            exact (manhattan_eq_zero h0).symm
          subst hx
          exact hq0 ▸ hadj
        | cons t0 trest =>
          have ht0 : t0 = q := by
            have hh := hhead (by rw [htl] at hlen; simp at hlen; omega)
            rw [htl] at hh
            simp only [List.head?_cons, Option.some.injEq] at hh
            exact hh
          rw [htl] at hx
          rw [List.reverse_cons, ← List.cons_append,
            List.getLast?_concat] at hx
          simp only [Option.mem_def, Option.some.injEq] at hx
          rw [← hx, ht0]
          exact hadj
      · intro hmem
        rcases List.mem_cons.mp hmem with he | hmem
        · exact hne he.symm
        · exact hnot hmem

/-- C4: On a fully open W×H grid with no obstacles, `findPath` from any
tile to any tile succeeds with an ordered sequence of positions leading
from the start to the goal, exclusive of the start: the returned list
(stored goal-first, consumed from the end by the walker) has length
exactly the Manhattan distance between start and goal, read in walking
order it is a chain of single 4-directional steps beginning beside the
start and ending at the goal, and it never contains the start itself. -/
theorem findPath_open_grid {W H : Nat} {start goal : Pos}
    (hs : inRect W H start) (hg : inRect W H goal) :
    ∃ path, findPath (openGrid W H) start goal = .ok path ∧
      path.length = manhattan start goal ∧
      List.Chain' adjacent (start :: path.reverse) ∧
      (start :: path.reverse).getLast? = some goal ∧
      start ∉ path := by
  obtain ⟨stF, hbfs, hchain, hcost⟩ := breadthFirstSearch_open hs hg
  unfold findPath
  rw [hbfs]
  obtain ⟨tail, hrun, hlen, hch, hhead, hnot⟩ :=
    reconstructLoop_spec hchain (manhattan start goal) goal rfl hcost
      ((openGrid W H).length + 2)
      (by rw [openGrid_length]
          have := manhattan_fuel_bound hs hg
          omega) []
  rw [List.nil_append] at hrun
  refine ⟨tail, hrun, hlen, hch, ?_, hnot⟩
  rcases tail with _ | ⟨t0, trest⟩
  · have h0 : manhattan start goal = 0 := by
      rw [← hlen]
      rfl
    have hsg : start = goal := manhattan_eq_zero h0
    rw [List.reverse_nil, List.getLast?_singleton, hsg]
  · have hm0 : manhattan start goal ≠ 0 := by
      rw [← hlen]
      simp
    have ht0 : t0 = goal := by
      have hh := hhead hm0
      simp only [List.head?_cons, Option.some.injEq] at hh
      exact hh
    rw [List.reverse_cons, ← List.cons_append, List.getLast?_concat, ht0]

/-- Witness for C4 at a concrete grid and endpoints. -/
theorem findPath_open_grid_witness :
    ∃ path, findPath (openGrid 3 2) ⟨0, 0⟩ ⟨2, 1⟩ = .ok path ∧
      path.length = manhattan ⟨0, 0⟩ ⟨2, 1⟩ ∧
      List.Chain' adjacent (⟨0, 0⟩ :: path.reverse) ∧
      ((⟨0, 0⟩ : Pos) :: path.reverse).getLast? = some ⟨2, 1⟩ ∧
      (⟨0, 0⟩ : Pos) ∉ path :=
  findPath_open_grid (by decide) (by decide)

end Roguelike
